import Mathlib

/-
Shallow embedding of `src/cachizer.ts` (cachize-decorator).

The file concatenates two revisions of the module.  The engine verified here
is the first revision (lines 1-194): `cacheGet`, `cacheSet`,
`resolveInflights`, `getIntermediateFunction`, `clearAllCached`, `cachize`.
The second revision's `cache` wrapper (lines 316-334) is also embedded for
the configuration-default claims, since it is cited there.

The source is an ES module, hence strict-mode JavaScript: `delete` of a
non-configurable own property throws a TypeError, and `Object.defineProperty`
on an existing non-configurable, non-writable property with a fresh value
object throws a TypeError.  Every property the engine creates is defined with
`configurable: false, enumerable: false, writable: false`, so these
attributes are modelled explicitly on each field of the owner object.

Fallible JavaScript is modelled with `Except String`; since a thrown
exception does not roll back earlier heap mutations, every operation returns
the owner state it reached alongside the `Except` result.
-/

set_option maxHeartbeats 1000000

namespace Cachizer

/-- JavaScript runtime values.  Objects are opaque references (`id`) carrying
their own enumerable fields; equality of `obj` terms (same `id`) plays the
role of reference equality. -/
inductive JsValue where
  | undef
  | null
  | bool (b : Bool)
  | num (n : Int)
  | str (s : String)
  | obj (id : Nat) (fields : List (String × JsValue))

/-- JavaScript truthiness.  Falsy: `undefined`, `null`, `false`, `0`, `''`.
(`NaN` is not modelled as a value.) -/
def truthy : JsValue → Bool
  | JsValue.undef => false
  | JsValue.null => false
  | JsValue.bool b => b
  | JsValue.num n => n != 0
  | JsValue.str s => s != ""
  | JsValue.obj _ _ => true

/-- JavaScript `String(v)` coercion as used by `Array.prototype.join`. -/
def jsToString : JsValue → String
  | JsValue.undef => "undefined"
  | JsValue.null => "null"
  | JsValue.bool b => if b then "true" else "false"
  | JsValue.num n => toString n
  | JsValue.str s => s
  | JsValue.obj _ _ => "[object Object]"

/-- Values of the own enumerable properties of `v`, in order, as enumerated
by `Object.keys(v).map(f => v[f])`.  On `undefined`/`null`, `Object.keys`
throws.  A string enumerates its character indices. -/
def jsOwnValues : JsValue → Except String (List JsValue)
  | JsValue.undef => Except.error "TypeError: Cannot convert undefined or null to object"
  | JsValue.null => Except.error "TypeError: Cannot convert undefined or null to object"
  | JsValue.bool _ => Except.ok []
  | JsValue.num _ => Except.ok []
  | JsValue.str s => Except.ok (s.data.map (fun c => JsValue.str (String.mk [c])))
  | JsValue.obj _ fields => Except.ok (fields.map (fun p => p.2))

/-- Whitespace characters recognised by the regex class backslash-s (the
common ASCII ones; exotic unicode spaces are not needed by any claim). -/
def isWs (c : Char) : Bool :=
  c = ' ' || c = '\t' || c = '\n' || c = '\r' || c = '\x0b' || c = '\x0c'

/-- Worker for `collapseWs`: the flag records whether the previous character
was whitespace (already replaced). -/
def collapseWsGo : Bool → List Char → List Char
  | _, [] => []
  | prevWs, c :: rest =>
    if isWs c then
      if prevWs then collapseWsGo true rest
      else '_' :: collapseWsGo true rest
    else c :: collapseWsGo false rest

/-- `s.replace(/\s+/g, '_')`: every maximal whitespace run becomes one `_`. -/
def collapseWs (s : String) : String := String.mk (collapseWsGo false s.data)

/-- Default hash-key derivation from the first argument
(`Object.keys(args[0]).map(f => args[0][f]).join('_')`). -/
def defaultDerive (a : JsValue) : Except String String :=
  (jsOwnValues a).map (fun vs => String.intercalate "_" (vs.map jsToString))

/-- A cache entry (`ICache`): `expired` is the absolute expiry instant;
`none` models `NaN` (`Date.now() + undefined`), which compares false under
`<` and therefore never expires. -/
structure ICache where
  expired : Option Int
  data : JsValue

/-- The rxjs `Subject` held per in-flight key: subscriber ids in
subscription order, and whether `complete()` has been called. -/
structure Subject where
  sid : Nat
  observers : List Nat
  stopped : Bool
deriving DecidableEq, Repr

/-- `cached.expired < Date.now()` with `NaN` (`none`) comparing false. -/
def expiredLt : Option Int → Int → Bool
  | none, _ => false
  | some e, now => decide (e < now)

/-- What a property of the owner object can hold: an unrelated plain value, a
single-slot cache entry, the `Map<hashKey, ICache>` backing a parameterized
operation, or the `Map<string, Subject>` in-flight registry. -/
inductive FieldVal where
  | plain (v : JsValue)
  | entry (e : ICache)
  | cmap (m : List (String × ICache))
  | inflight (m : List (String × Subject))

/-- An own property of the owner object together with its attributes. -/
structure Field where
  name : String
  value : FieldVal
  enumerable : Bool
  configurable : Bool
  writable : Bool

/-- The owner object: its own properties in definition order. -/
abbrev Obj : Type := List Field

/-! Association-list operations mirroring `Map.get` / `Map.set` /
`Map.delete` (first occurrence; engine-built maps keep keys unique). -/

def alGet {α : Type} : List (String × α) → String → Option α
  | [], _ => none
  | p :: rest, k => if p.1 = k then some p.2 else alGet rest k

def alSet {α : Type} : List (String × α) → String → α → List (String × α)
  | [], k, v => [(k, v)]
  | p :: rest, k, v => if p.1 = k then (k, v) :: rest else p :: alSet rest k v

def alDel {α : Type} : List (String × α) → String → List (String × α)
  | [], _ => []
  | p :: rest, k => if p.1 = k then rest else p :: alDel rest k

def alCount {α : Type} : List (String × α) → String → Nat
  | [], _ => 0
  | p :: rest, k => (if p.1 = k then 1 else 0) + alCount rest k

/-! Own-property operations on the owner object. -/

def getField : Obj → String → Option FieldVal
  | [], _ => none
  | f :: rest, k => if f.name = k then some f.value else getField rest k

def hasOwn (o : Obj) (k : String) : Bool := (getField o k).isSome

/-- The `configurable` attribute of an existing own property. -/
def getCfg : Obj → String → Option Bool
  | [], _ => none
  | f :: rest, k => if f.name = k then some f.configurable else getCfg rest k

/-- Replace the value of an existing property, keeping its attributes.  Used
for mutating a `Map` object held in a (possibly non-writable) property:
mutating the map does not touch the property itself. -/
def mutateField : Obj → String → FieldVal → Obj
  | [], _, _ => []
  | f :: rest, k, v =>
    if f.name = k then ⟨f.name, v, f.enumerable, f.configurable, f.writable⟩ :: rest
    else f :: mutateField rest k v

def replaceField : Obj → String → Field → Obj
  | [], _, _ => []
  | f :: rest, k, nf => if f.name = k then nf :: rest else f :: replaceField rest k nf

def removeField : Obj → String → Obj
  | [], _ => []
  | f :: rest, k => if f.name = k then rest else f :: removeField rest k

/-- `Object.defineProperty(obj, k, { configurable: false, enumerable: false,
writable: false, value })`.  Redefining an existing non-configurable
property throws (the engine always supplies a fresh value object, so the
`SameValue` escape hatch never applies). -/
def defineProp (o : Obj) (k : String) (v : FieldVal) : Obj × Except String Unit :=
  match getCfg o k with
  | none => (o ++ [⟨k, v, false, false, false⟩], Except.ok ())
  | some true => (replaceField o k ⟨k, v, false, false, false⟩, Except.ok ())
  | some false => (o, Except.error "TypeError: Cannot redefine property")

/-- Strict-mode `delete obj[k]`: deleting an existing non-configurable own
property throws a TypeError; deleting a missing property succeeds. -/
def deleteProp (o : Obj) (k : String) : Obj × Except String Bool :=
  match getCfg o k with
  | none => (o, Except.ok true)
  | some true => (removeField o k, Except.ok true)
  | some false => (o, Except.error "TypeError: Cannot delete property")

/-! The engine, translated from revision 1 of `src/cachizer.ts`. -/

/-- The reserved storage-key stub (`__cachized_val_`). -/
def cachedStub : String := "__cachized_val_"

/-- `propName` computed by the intermediate function. -/
def propNameOf (name : String) : String := cachedStub ++ name

/-- `fhkey` computed by `resolveInflights` (`hkey || ''` collapses to
`hkey`, which is already `''` exactly when falsy). -/
def fhkeyOf (key hkey : String) : String := key ++ "_" ++ hkey

/-- `cacheGet(obj, key, hkey)` (lines 75-98): returns the cached data if the
key exists and has not expired, else `false`; lazily creates the backing map
for parameterized operations, and lazily deletes an expired entry (which for
the single-slot shape is a strict-mode `delete` of a non-configurable
property and therefore throws). -/
def cacheGet (o : Obj) (key hkey : String) (now : Int) : Obj × Except String JsValue :=
  if hkey != "" && !(hasOwn o key) then
    -- defineProperty(obj, key, ... new Map()); cached stays null
    ((defineProp o key (FieldVal.cmap [])).1, Except.ok (JsValue.bool false))
  else
    match getField o key with
    | none =>
      if hkey != "" then (o, Except.error "TypeError: Cannot read properties of undefined")
      else (o, Except.ok (JsValue.bool false))   -- cached = undefined
    | some fv =>
      if hkey != "" then
        match fv with
        | FieldVal.cmap m =>
          match alGet m hkey with
          | none => (o, Except.ok (JsValue.bool false))
          | some e =>
            if expiredLt e.expired now then
              (mutateField o key (FieldVal.cmap (alDel m hkey)), Except.ok (JsValue.bool false))
            else (o, Except.ok e.data)
        | FieldVal.inflight m =>
          -- a Map of Subjects: `.get` yields a Subject object (truthy, with
          -- `expired` and `data` both undefined) or undefined
          match alGet m hkey with
          | none => (o, Except.ok (JsValue.bool false))
          | some _ => (o, Except.ok JsValue.undef)
        | _ => (o, Except.error "TypeError: get is not a function")
      else
        match fv with
        | FieldVal.entry e =>
          if expiredLt e.expired now then
            let r := deleteProp o key
            (r.1, r.2.map (fun _ => JsValue.bool false))
          else (o, Except.ok e.data)
        | FieldVal.plain v =>
          -- a user-planted value in the slot: no `expired` field, so never
          -- expired; a truthy value yields its (undefined) `.data`
          (o, Except.ok (if truthy v then JsValue.undef else JsValue.bool false))
        | FieldVal.cmap _ => (o, Except.ok JsValue.undef)
        | FieldVal.inflight _ => (o, Except.ok JsValue.undef)

/-- Engine state: the owner object plus a supply of fresh Subject ids. -/
structure St where
  obj : Obj
  nextSid : Nat

/-- What `resolveInflights` returns: `true`, the in-flight `Subject`, or
`false`. -/
inductive InfRes where
  | rTrue
  | rSubj (s : Subject)
  | rFalse

/-- `resolveInflights(obj, key, hkey, data)` (lines 118-145).  Besides the
updated state and the returned value, the notifications delivered by
`inFlight.next(data)` are made explicit as `(subscriber, value)` pairs. -/
def resolveInflights (st : St) (key hkey : String) (data : JsValue) :
    St × Except String (InfRes × List (Nat × JsValue)) :=
  let fkey := "_inflightReq"
  let fh := fhkeyOf key hkey
  let o₁ := if hasOwn st.obj fkey then st.obj else (defineProp st.obj fkey (FieldVal.inflight [])).1
  match getField o₁ fkey with
  | some (FieldVal.inflight fl) =>
    match alGet fl fh, truthy data with
    | some s, true =>
      -- next(data) to current observers (skipped when there are none, which
      -- delivers the same empty notification list), complete(), delete
      let notifs := s.observers.map (fun c => (c, data))
      (⟨mutateField o₁ fkey (FieldVal.inflight (alDel fl fh)), st.nextSid⟩,
       Except.ok (InfRes.rTrue, notifs))
    | some s, false => (⟨o₁, st.nextSid⟩, Except.ok (InfRes.rSubj s, []))
    | none, _ =>
      (⟨mutateField o₁ fkey (FieldVal.inflight (alSet fl fh ⟨st.nextSid, [], false⟩)), st.nextSid + 1⟩,
       Except.ok (InfRes.rFalse, []))
  | _ => (⟨o₁, st.nextSid⟩, Except.error "TypeError: has is not a function")

/-- `cacheSet(obj, key, hkey, data, options)` (lines 101-115): stores
`{ data, expired: Date.now() + options.ttl }` and then runs
`resolveInflights`.  Returns the waiter notifications. -/
def cacheSet (st : St) (key hkey : String) (data : JsValue) (now : Int) (ttl : Option Int) :
    St × Except String (List (Nat × JsValue)) :=
  let cval : ICache := ⟨ttl.map (fun t => now + t), data⟩
  if hkey != "" then
    match getField st.obj key with
    | some (FieldVal.cmap m) =>
      let st₁ : St := ⟨mutateField st.obj key (FieldVal.cmap (alSet m hkey cval)), st.nextSid⟩
      let r := resolveInflights st₁ key hkey data
      (r.1, r.2.map (fun x => x.2))
    | _ => (st, Except.error "TypeError: set is not a function")
  else
    let d := defineProp st.obj key (FieldVal.entry cval)
    match d.2 with
    | Except.error e => (⟨d.1, st.nextSid⟩, Except.error e)
    | Except.ok _ =>
      let r := resolveInflights ⟨d.1, st.nextSid⟩ key hkey data
      (r.1, r.2.map (fun x => x.2))

/-- `key.startsWith(stub)`, computed structurally on the character lists (so
it reduces in the kernel). -/
def strStartsWith (s stub : String) : Bool := stub.data.isPrefixOf s.data

/-- `clearAllCached(obj)` (lines 63-72): snapshot all own property names,
delete those starting with the reserved stub. -/
def clearLoop : Obj → List String → Obj × Except String Unit
  | o, [] => (o, Except.ok ())
  | o, k :: rest =>
    if strStartsWith k cachedStub then
      let d := deleteProp o k
      match d.2 with
      | Except.error e => (d.1, Except.error e)
      | Except.ok _ => clearLoop d.1 rest
    else clearLoop o rest

def clearAllCached (o : Obj) : Obj × Except String Unit :=
  clearLoop o (o.map (fun f => f.name))

/-- The decorator options record; `none` in a component models an absent
(undefined) option. -/
structure CachizeOptions where
  ttl : Option Int
  async : Option Bool
  log : Option Bool
deriving DecidableEq, Repr

/-- Truthiness of `options.async`. -/
def optsAsync (o : CachizeOptions) : Bool := o.async.getD false

/-- The hash-function argument of the wrapper: absent (falsy), a callable
(which may throw), or a truthy non-callable (an options object passed in the
function position, as revision 1's `cachize` does). -/
inductive HashFn where
  | noF
  | f (h : List JsValue → Except String String)
  | nonCallable

/-- What a call of the wrapped method returns: a direct value (sync), an
`Observable` wrapping a cached value (async hit), the shared in-flight
`Subject` (waiter), or the producer's piped source observable. -/
inductive CallRes where
  | value (v : JsValue)
  | hitObs (v : JsValue)
  | handle (s : Subject)
  | producerStart

/-- Result of one call of the wrapped method: final state, result (or thrown
error), and whether the original method was invoked. -/
structure CallOut where
  st : St
  res : Except String CallRes
  invoked : Bool

/-- The body of the function returned by `getIntermediateFunction`
(lines 153-189) after the hash key has been computed: cache probe, cached
return, and on a miss either the in-flight join (async) or a direct
invocation plus store (sync). -/
def orchestrate (st : St) (name hashKey : String) (opts : CachizeOptions)
    (method : List JsValue → JsValue) (args : List JsValue) (now : Int) : CallOut :=
  let propName := propNameOf name
  let g := cacheGet st.obj propName hashKey now
  match g.2 with
  | Except.error e => ⟨⟨g.1, st.nextSid⟩, Except.error e, false⟩
  | Except.ok cached =>
    let st₁ : St := ⟨g.1, st.nextSid⟩
    if truthy cached then
      ⟨st₁, Except.ok (if optsAsync opts then CallRes.hitObs cached else CallRes.value cached), false⟩
    else if optsAsync opts then
      let r := resolveInflights st₁ propName hashKey JsValue.undef
      match r.2 with
      | Except.error e => ⟨r.1, Except.error e, false⟩
      | Except.ok (InfRes.rSubj s, _) => ⟨r.1, Except.ok (CallRes.handle s), false⟩
      | Except.ok (InfRes.rFalse, _) => ⟨r.1, Except.ok CallRes.producerStart, true⟩
      | Except.ok (InfRes.rTrue, _) => ⟨r.1, Except.ok (CallRes.value (JsValue.bool true)), false⟩
    else
      let nv := method args
      let sres := cacheSet st₁ propName hashKey nv now opts.ttl
      match sres.2 with
      | Except.error e => ⟨sres.1, Except.error e, true⟩
      | Except.ok _ => ⟨sres.1, Except.ok (CallRes.value nv), true⟩

/-- Hash-key computation of the intermediate function (lines 155-163): only
performed when arguments were supplied; the whitespace collapse applies to
both the custom and the derived key. -/
def computeHashKey (hf : HashFn) (args : List JsValue) : Except String String :=
  match args with
  | [] => Except.ok ""
  | a :: _ =>
    let raw : Except String String :=
      match hf with
      | HashFn.noF => defaultDerive a
      | HashFn.f h => h args
      | HashFn.nonCallable => Except.error "TypeError: hashFunction.apply is not a function"
    raw.map collapseWs

/-- One call of the wrapped method (the function returned by
`getIntermediateFunction`): hash-key derivation, then `orchestrate`. -/
def wrappedCall (hf : HashFn) (opts : CachizeOptions) (name : String)
    (method : List JsValue → JsValue) (args : List JsValue) (st : St) (now : Int) : CallOut :=
  match computeHashKey hf args with
  | Except.error e => ⟨st, Except.error e, false⟩
  | Except.ok hk => orchestrate st name hk opts method args now

/-! Option resolution of the two wrapper entry points (claim C7). -/

/-- The first argument of revision 1's `cachize`: `undefined` (no
arguments), a function, or an options object. -/
inductive CachizeArg where
  | undef
  | func
  | opts (o : CachizeOptions)

/-- The default of `cachize`'s second parameter:
`{ ttl: 1800000, async: true }`. -/
def cachizeDefaults : CachizeOptions := ⟨some 1800000, some true, none⟩

/-- Revision 1 `cachize` (lines 43-49): the parameter default applies only
when the `options` argument is undefined, and `if (typeof fn !== 'function')
options = fn` replaces the whole record (when `fn` is undefined this erases
the defaults entirely). -/
def cachizeResolve (fn : CachizeArg) (options : Option CachizeOptions) : Option CachizeOptions :=
  let o := options.getD cachizeDefaults
  match fn with
  | CachizeArg.func => some o
  | CachizeArg.undef => none
  | CachizeArg.opts c => some c

/-- An absent options object; `getIntermediateFunction`'s own parameter
default is `{}`, i.e. every option undefined. -/
def emptyOptions : CachizeOptions := ⟨none, none, none⟩

/-- The options record the intermediate function actually sees for a
revision 1 `cachize` wrapping. -/
def cachizeEffective (fn : CachizeArg) (options : Option CachizeOptions) : CachizeOptions :=
  (cachizeResolve fn options).getD emptyOptions

/-- The first argument of revision 2's `cache`: its parameter default `{}`,
a function, `null`, or an options object. -/
inductive CacheArg where
  | emptyObj
  | func
  | nullArg
  | opts (o : CachizeOptions)

/-- Revision 2's defaults: `{ ttl: 1800000, async: true, log: true }` (note
`log: true`, although the doc comment above it says the default is false). -/
def cacheDefaults : CachizeOptions := ⟨some 1800000, some true, some true⟩

/-- `Object.assign({}, base, extra)` on option records: a present component
of `extra` wins. -/
def assignOptions (base extra : CachizeOptions) : CachizeOptions :=
  ⟨extra.ttl <|> base.ttl, extra.async <|> base.async, extra.log <|> base.log⟩

/-- Revision 2 `cache` (lines 318-324): both branches merge over the
defaults with `Object.assign`. -/
def cacheEffective (fn : CacheArg) (options : Option CachizeOptions) : CachizeOptions :=
  match fn with
  | CacheArg.func => assignOptions cacheDefaults (options.getD emptyOptions)
  | CacheArg.emptyObj => assignOptions cacheDefaults emptyOptions
  | CacheArg.nullArg => assignOptions cacheDefaults emptyOptions
  | CacheArg.opts o => assignOptions cacheDefaults o

/-! The cooperative asynchronous trace machinery: a caller that receives the
in-flight `Subject` subscribes to it; the producer's piped observable later
either emits (running the `tap` side effect) or errors. -/

/-- A waiter subscribing to the `Subject` it was handed (the subject lives
in the in-flight map, so the subscription is visible to the broadcast). -/
def subscribeWaiter (st : St) (fh : String) (cid : Nat) : St :=
  match getField st.obj "_inflightReq" with
  | some (FieldVal.inflight fl) =>
    match alGet fl fh with
    | some s =>
      ⟨mutateField st.obj "_inflightReq"
        (FieldVal.inflight (alSet fl fh ⟨s.sid, s.observers ++ [cid], s.stopped⟩)), st.nextSid⟩
    | none => st
  | _ => st

/-- One cooperative logical call: run the wrapped method (after hashing) and,
when the result is the in-flight subject, immediately subscribe caller
`cid` to it. -/
def callAndAwait (st : St) (name hashKey : String) (opts : CachizeOptions)
    (method : List JsValue → JsValue) (args : List JsValue) (cid : Nat) (now : Int) :
    St × Except String CallRes × Bool :=
  let o := orchestrate st name hashKey opts method args now
  match o.res with
  | Except.ok (CallRes.handle _) =>
    (subscribeWaiter o.st (fhkeyOf (propNameOf name) hashKey) cid, o.res, o.invoked)
  | _ => (o.st, o.res, o.invoked)

/-- A sequence of cooperative calls `(caller id, instant)`, collecting each
call's result and whether it invoked the original method. -/
def waiterPhase (name hashKey : String) (opts : CachizeOptions)
    (method : List JsValue → JsValue) (args : List JsValue) :
    St → List (Nat × Int) → St × List (Except String CallRes × Bool)
  | st, [] => (st, [])
  | st, c :: rest =>
    let r := callAndAwait st name hashKey opts method args c.1 c.2
    let w := waiterPhase name hashKey opts method args r.1 rest
    (w.1, (r.2.1, r.2.2) :: w.2)

/-- How the producer's underlying source terminates. -/
inductive SourceOutcome where
  | emit (v : JsValue)
  | fail (e : String)

/-- Completion of the producer's piped observable
(`originalMethod.apply(...).pipe(tap(data => cacheSet(...)))`, lines
179-183).  `tap` with a single function argument taps only `next`
notifications: on `emit` the side effect `cacheSet` runs (store + broadcast)
and the value is forwarded to the producer's subscriber; on `fail` the error
passes straight through and nothing else happens. -/
def producerComplete (st : St) (name hashKey : String) (oc : SourceOutcome) (now : Int)
    (opts : CachizeOptions) : St × Except String (List (Nat × JsValue) × JsValue) :=
  match oc with
  | SourceOutcome.emit v =>
    let r := cacheSet st (propNameOf name) hashKey v now opts.ttl
    match r.2 with
    | Except.error e => (r.1, Except.error e)
    | Except.ok notifs => (r.1, Except.ok (notifs, v))
  | SourceOutcome.fail e => (st, Except.error e)

/-! Decidable shape predicates used as hypotheses and invariants. -/

/-- The `_inflightReq` slot, if present, holds the registry map (always true
for engine-reachable states). -/
def inflightSane (o : Obj) : Bool :=
  match getField o "_inflightReq" with
  | none => true
  | some (FieldVal.inflight _) => true
  | some _ => false

/-- The cache misses for `(pn, hkey)` in the shape the orchestrator leaves
behind: no single-slot entry (empty hash key), or a backing map with no
entry under `hkey`. -/
def missShape (o : Obj) (pn hkey : String) : Bool :=
  if hkey = "" then (getField o pn).isNone
  else
    match getField o pn with
    | some (FieldVal.cmap m) => (alGet m hkey).isNone
    | _ => false

/-- The in-flight registration currently stored for `fh`. -/
def regAt (o : Obj) (fh : String) : Option Subject :=
  match getField o "_inflightReq" with
  | some (FieldVal.inflight fl) => alGet fl fh
  | _ => none

/-- How many in-flight registrations exist for `fh` (a faithful `Map` always
has at most one). -/
def regCount (o : Obj) (fh : String) : Nat :=
  match getField o "_inflightReq" with
  | some (FieldVal.inflight fl) => alCount fl fh
  | _ => 0

/-- The value cached for `(pn, hkey)`, ignoring expiry. -/
def cacheLookup (o : Obj) (pn hkey : String) : Option JsValue :=
  if hkey = "" then
    match getField o pn with
    | some (FieldVal.entry e) => some e.data
    | _ => none
  else
    match getField o pn with
    | some (FieldVal.cmap m) => (alGet m hkey).map (fun e => e.data)
    | _ => none

/-- Coalescing invariant: the cache misses for the key, the registry is
sane, and exactly one registration exists for `fh` — the pending subject
`⟨sid, obs, false⟩`. -/
def coalSt (st : St) (name hkey : String) (sid : Nat) (obs : List Nat) : Bool :=
  let pn := propNameOf name
  let fh := fhkeyOf pn hkey
  missShape st.obj pn hkey && inflightSane st.obj &&
    decide (regAt st.obj fh = some ⟨sid, obs, false⟩) && decide (regCount st.obj fh = 1)

/-- A clean start for the key: no cache slot for `pn` at all, sane registry,
no registration for `fh`. -/
def cleanStart (st : St) (name hkey : String) : Bool :=
  let pn := propNameOf name
  let fh := fhkeyOf pn hkey
  (getField st.obj pn).isNone && inflightSane st.obj && decide (regCount st.obj fh = 0)

/-! Association-list lemmas. -/

theorem alGet_alSet_self {α : Type} (l : List (String × α)) (k : String) (v : α) :
    alGet (alSet l k v) k = some v := by
  induction l with
  | nil => simp [alSet, alGet]
  | cons p rest ih =>
    by_cases h : p.1 = k
    · simp [alSet, alGet, h]
    · simp [alSet, alGet, h, ih]

theorem alGet_alSet_ne {α : Type} (l : List (String × α)) (k k' : String) (v : α)
    (h : k' ≠ k) : alGet (alSet l k v) k' = alGet l k' := by
  induction l with
  | nil => simp [alSet, alGet, Ne.symm h]
  | cons p rest ih =>
    by_cases hp : p.1 = k
    · simp [alSet, alGet, hp, Ne.symm h]
    · simp [alSet, alGet, hp, ih]

theorem alGet_eq_none_of_alCount_eq_zero {α : Type} (l : List (String × α)) (k : String)
    (h : alCount l k = 0) : alGet l k = none := by
  induction l with
  | nil => rfl
  | cons p rest ih =>
    by_cases hp : p.1 = k
    · simp [alCount, hp] at h
    · simp [alCount, hp] at h
      simp [alGet, hp, ih h]

theorem alCount_alSet_present {α : Type} (l : List (String × α)) (k : String) (v : α)
    (h : (alGet l k).isSome) : alCount (alSet l k v) k = alCount l k := by
  induction l with
  | nil => simp [alGet] at h
  | cons p rest ih =>
    by_cases hp : p.1 = k
    · simp [alSet, alCount, hp]
    · simp [alGet, hp] at h
      simp [alSet, alCount, hp, ih h]

theorem alCount_alSet_absent {α : Type} (l : List (String × α)) (k : String) (v : α)
    (h : alGet l k = none) : alCount (alSet l k v) k = alCount l k + 1 := by
  induction l with
  | nil => simp [alSet, alCount]
  | cons p rest ih =>
    by_cases hp : p.1 = k
    · simp [alGet, hp] at h
    · simp [alGet, hp] at h
      simp [alSet, alCount, hp, ih h]

theorem alCount_alDel {α : Type} (l : List (String × α)) (k : String) :
    alCount (alDel l k) k = alCount l k - 1 := by
  induction l with
  | nil => rfl
  | cons p rest ih =>
    by_cases hp : p.1 = k
    · simp [alDel, alCount, hp]
    · simp [alDel, alCount, hp, ih]

/-! Field-table lemmas. -/

theorem getField_mutateField_self (o : Obj) (k : String) (v : FieldVal)
    (h : (getField o k).isSome) : getField (mutateField o k v) k = some v := by
  induction o with
  | nil => simp [getField] at h
  | cons f rest ih =>
    by_cases hf : f.name = k
    · simp [mutateField, getField, hf]
    · simp [getField, hf] at h
      simp [mutateField, getField, hf, ih h]

theorem getField_mutateField_ne (o : Obj) (k k' : String) (v : FieldVal)
    (h : k' ≠ k) : getField (mutateField o k v) k' = getField o k' := by
  induction o with
  | nil => rfl
  | cons f rest ih =>
    by_cases hf : f.name = k
    · simp [mutateField, getField, hf, Ne.symm h]
    · simp [mutateField, getField, hf, ih]

theorem getCfg_mutateField (o : Obj) (k k' : String) (v : FieldVal) :
    getCfg (mutateField o k v) k' = getCfg o k' := by
  induction o with
  | nil => rfl
  | cons f rest ih =>
    by_cases hf : f.name = k
    · simp [mutateField, getCfg, hf]
    · simp [mutateField, getCfg, hf, ih]

theorem getField_append_self (o : Obj) (f : Field) (h : getField o f.name = none) :
    getField (o ++ [f]) f.name = some f.value := by
  induction o with
  | nil => simp [getField]
  | cons g rest ih =>
    by_cases hg : g.name = f.name
    · simp [getField, hg] at h
    · simp [getField, hg] at h ⊢
      exact ih h

theorem getField_append_ne (o : Obj) (f : Field) (k' : String) (h : k' ≠ f.name) :
    getField (o ++ [f]) k' = getField o k' := by
  induction o with
  | nil => simp [getField, Ne.symm h]
  | cons g rest ih =>
    by_cases hg : g.name = k'
    · simp [getField, hg]
    · simp [getField, hg, ih]

theorem getCfg_isNone_iff (o : Obj) (k : String) :
    getCfg o k = none ↔ getField o k = none := by
  induction o with
  | nil => simp [getCfg, getField]
  | cons f rest ih =>
    by_cases hf : f.name = k
    · simp [getCfg, getField, hf]
    · simp [getCfg, getField, hf, ih]

theorem length_propNameOf (name : String) :
    (propNameOf name).length = 15 + name.length := by
  rw [propNameOf, String.length_append, show cachedStub.length = 15 from rfl]

theorem propNameOf_ne_inflight (name : String) : propNameOf name ≠ "_inflightReq" := by
  intro h
  have hl := congrArg String.length h
  rw [length_propNameOf, show ("_inflightReq".length : Nat) = 12 from rfl] at hl
  omega

/-! Engine-level lemmas. -/

/-- On a miss in orchestrator shape, `cacheGet` returns `false` and leaves
the owner untouched. -/
theorem cacheGet_missShape (o : Obj) (pn hkey : String) (now : Int)
    (h : missShape o pn hkey = true) :
    cacheGet o pn hkey now = (o, Except.ok (JsValue.bool false)) := by
  by_cases hk : hkey = ""
  · subst hk
    rw [missShape, if_pos rfl, Option.isNone_iff_eq_none] at h
    simp [cacheGet, h]
  · rw [missShape, if_neg hk] at h
    cases hg : getField o pn with
    | none => rw [hg] at h; simp at h
    | some fv =>
      cases fv with
      | cmap m =>
        rw [hg] at h
        simp only [Option.isNone_iff_eq_none] at h
        simp [cacheGet, hasOwn, hg, hk, h]
      | plain v => rw [hg] at h; simp at h
      | entry e => rw [hg] at h; simp at h
      | inflight m => rw [hg] at h; simp at h

/-- Joining an existing registration with falsy data returns its `Subject`
and changes nothing. -/
theorem resolveInflights_waiter (st : St) (key hkey : String) (data : JsValue)
    (fl : List (String × Subject)) (s : Subject)
    (hf : getField st.obj "_inflightReq" = some (FieldVal.inflight fl))
    (hs : alGet fl (fhkeyOf key hkey) = some s)
    (hd : truthy data = false) :
    resolveInflights st key hkey data = (st, Except.ok (InfRes.rSubj s, [])) := by
  rw [resolveInflights]
  simp [hasOwn, hf, hs, hd]

/-- Registering a fresh in-flight `Subject` when the registry map exists but
has no entry for the key. -/
theorem resolveInflights_register (st : St) (key hkey : String) (data : JsValue)
    (fl : List (String × Subject))
    (hf : getField st.obj "_inflightReq" = some (FieldVal.inflight fl))
    (hs : alGet fl (fhkeyOf key hkey) = none) :
    resolveInflights st key hkey data =
      (⟨mutateField st.obj "_inflightReq"
          (FieldVal.inflight (alSet fl (fhkeyOf key hkey) ⟨st.nextSid, [], false⟩)),
        st.nextSid + 1⟩,
       Except.ok (InfRes.rFalse, [])) := by
  rw [resolveInflights]
  simp [hasOwn, hf, hs]

/-- Registering when the registry map does not exist yet: it is defined
first, then the `Subject` installed. -/
theorem resolveInflights_register_fresh (st : St) (key hkey : String) (data : JsValue)
    (hf : getField st.obj "_inflightReq" = none) :
    resolveInflights st key hkey data =
      (⟨mutateField (st.obj ++ [⟨"_inflightReq", FieldVal.inflight [], false, false, false⟩])
          "_inflightReq"
          (FieldVal.inflight [(fhkeyOf key hkey, ⟨st.nextSid, [], false⟩)]),
        st.nextSid + 1⟩,
       Except.ok (InfRes.rFalse, [])) := by
  rw [resolveInflights]
  have hcfg : getCfg st.obj "_inflightReq" = none := (getCfg_isNone_iff _ _).mpr hf
  have hlook :
      getField (st.obj ++ [⟨"_inflightReq", FieldVal.inflight [], false, false, false⟩])
        "_inflightReq" = some (FieldVal.inflight []) :=
    getField_append_self st.obj ⟨"_inflightReq", FieldVal.inflight [], false, false, false⟩ hf
  simp [hasOwn, hf, defineProp, hcfg, hlook, alGet, alSet]

/-- Resolving an existing registration with truthy data: broadcast to all
observers, complete, delete the registration. -/
theorem resolveInflights_broadcast (st : St) (key hkey : String) (data : JsValue)
    (fl : List (String × Subject)) (s : Subject)
    (hf : getField st.obj "_inflightReq" = some (FieldVal.inflight fl))
    (hs : alGet fl (fhkeyOf key hkey) = some s)
    (hd : truthy data = true) :
    resolveInflights st key hkey data =
      (⟨mutateField st.obj "_inflightReq" (FieldVal.inflight (alDel fl (fhkeyOf key hkey))),
        st.nextSid⟩,
       Except.ok (InfRes.rTrue, s.observers.map (fun c => (c, data)))) := by
  rw [resolveInflights]
  simp [hasOwn, hf, hs, hd]

/-- Unpacking the coalescing invariant. -/
theorem coalSt_dest (st : St) (name hkey : String) (sid : Nat) (obs : List Nat)
    (h : coalSt st name hkey sid obs = true) :
    missShape st.obj (propNameOf name) hkey = true ∧
    ∃ fl, getField st.obj "_inflightReq" = some (FieldVal.inflight fl) ∧
      alGet fl (fhkeyOf (propNameOf name) hkey) = some ⟨sid, obs, false⟩ ∧
      alCount fl (fhkeyOf (propNameOf name) hkey) = 1 := by
  rw [coalSt] at h
  simp only [Bool.and_eq_true, decide_eq_true_eq] at h
  obtain ⟨⟨⟨hm, _⟩, hreg⟩, hcount⟩ := h
  refine ⟨hm, ?_⟩
  rw [regAt] at hreg
  rw [regCount] at hcount
  cases hg : getField st.obj "_inflightReq" with
  | none => rw [hg] at hreg; simp at hreg
  | some fv =>
    cases fv with
    | inflight fl =>
      rw [hg] at hreg hcount
      exact ⟨fl, rfl, hreg, hcount⟩
    | plain v => rw [hg] at hreg; simp at hreg
    | entry e => rw [hg] at hreg; simp at hreg
    | cmap m => rw [hg] at hreg; simp at hreg

/-- Packing the coalescing invariant. -/
theorem coalSt_intro (st : St) (name hkey : String) (sid : Nat) (obs : List Nat)
    (fl : List (String × Subject))
    (hm : missShape st.obj (propNameOf name) hkey = true)
    (hg : getField st.obj "_inflightReq" = some (FieldVal.inflight fl))
    (hreg : alGet fl (fhkeyOf (propNameOf name) hkey) = some ⟨sid, obs, false⟩)
    (hcount : alCount fl (fhkeyOf (propNameOf name) hkey) = 1) :
    coalSt st name hkey sid obs = true := by
  rw [coalSt]
  simp [hm, inflightSane, hg, regAt, regCount, hreg, hcount]

theorem missShape_eq_of_getField_eq (o o' : Obj) (pn hkey : String)
    (h : getField o' pn = getField o pn) : missShape o' pn hkey = missShape o pn hkey := by
  rw [missShape, missShape, h]

/-- In a coalescing state, a further asynchronous call returns the pending
registration's `Subject` without touching the state and without invoking
the producer. -/
theorem orchestrate_waiter (st : St) (name hkey : String) (opts : CachizeOptions)
    (method : List JsValue → JsValue) (args : List JsValue) (now : Int)
    (sid : Nat) (obs : List Nat)
    (hasync : optsAsync opts = true)
    (h : coalSt st name hkey sid obs = true) :
    orchestrate st name hkey opts method args now =
      ⟨st, Except.ok (CallRes.handle ⟨sid, obs, false⟩), false⟩ := by
  obtain ⟨hm, fl, hg, hreg, _⟩ := coalSt_dest st name hkey sid obs h
  rw [orchestrate, cacheGet_missShape st.obj (propNameOf name) hkey now hm]
  have hrw := resolveInflights_waiter ⟨st.obj, st.nextSid⟩ (propNameOf name) hkey
    JsValue.undef fl ⟨sid, obs, false⟩ hg hreg rfl
  simp [truthy, hasync, hrw]

/-- Subscribing the waiter to the subject it was handed appends it to the
registration's observers and preserves the invariant. -/
theorem subscribeWaiter_coal (st : St) (name hkey : String) (sid : Nat) (obs : List Nat)
    (cid : Nat) (h : coalSt st name hkey sid obs = true) :
    coalSt (subscribeWaiter st (fhkeyOf (propNameOf name) hkey) cid) name hkey sid
      (obs ++ [cid]) = true := by
  obtain ⟨hm, fl, hg, hreg, hcount⟩ := coalSt_dest st name hkey sid obs h
  rw [subscribeWaiter, hg]
  simp only [hreg]
  refine coalSt_intro _ name hkey sid (obs ++ [cid])
    (alSet fl (fhkeyOf (propNameOf name) hkey) ⟨sid, obs ++ [cid], false⟩) ?_ ?_ ?_ ?_
  · show missShape
      (mutateField st.obj "_inflightReq"
        (FieldVal.inflight (alSet fl (fhkeyOf (propNameOf name) hkey) ⟨sid, obs ++ [cid], false⟩)))
      (propNameOf name) hkey = true
    rw [missShape_eq_of_getField_eq st.obj _ (propNameOf name) hkey
      (getField_mutateField_ne _ _ _ _ (propNameOf_ne_inflight name))]
    exact hm
  · exact getField_mutateField_self _ _ _ (by rw [hg]; rfl)
  · exact alGet_alSet_self _ _ _
  · show alCount (alSet fl (fhkeyOf (propNameOf name) hkey) ⟨sid, obs ++ [cid], false⟩)
      (fhkeyOf (propNameOf name) hkey) = 1
    rw [alCount_alSet_present _ _ _ (by rw [hreg]; rfl)]
    exact hcount

/-- One cooperative waiter call: result and invariant preservation. -/
theorem callAndAwait_waiter (st : St) (name hkey : String) (opts : CachizeOptions)
    (method : List JsValue → JsValue) (args : List JsValue) (cid : Nat) (now : Int)
    (sid : Nat) (obs : List Nat)
    (hasync : optsAsync opts = true)
    (h : coalSt st name hkey sid obs = true) :
    callAndAwait st name hkey opts method args cid now =
      (subscribeWaiter st (fhkeyOf (propNameOf name) hkey) cid,
       Except.ok (CallRes.handle ⟨sid, obs, false⟩), false) ∧
    coalSt (callAndAwait st name hkey opts method args cid now).1 name hkey sid
      (obs ++ [cid]) = true := by
  have ho := orchestrate_waiter st name hkey opts method args now sid obs hasync h
  constructor
  · rw [callAndAwait, ho]
  · rw [callAndAwait, ho]
    exact subscribeWaiter_coal st name hkey sid obs cid h

/-- Any number of cooperative calls arriving while a registration is
pending: each receives the same registration's subject (thus never starts a
producer invocation), and afterwards the invariant holds with all callers
appended as observers. -/
theorem waiterPhase_spec (name hkey : String) (opts : CachizeOptions)
    (method : List JsValue → JsValue) (args : List JsValue)
    (hasync : optsAsync opts = true) :
    ∀ (calls : List (Nat × Int)) (st : St) (sid : Nat) (obs : List Nat),
      coalSt st name hkey sid obs = true →
      coalSt (waiterPhase name hkey opts method args st calls).1 name hkey sid
          (obs ++ calls.map (fun c => c.1)) = true ∧
      ∀ r ∈ (waiterPhase name hkey opts method args st calls).2,
        (∃ mid, r.1 = Except.ok (CallRes.handle ⟨sid, mid, false⟩)) ∧ r.2 = false := by
  intro calls
  induction calls with
  | nil =>
    intro st sid obs h
    simpa [waiterPhase] using h
  | cons c rest ih =>
    intro st sid obs h
    obtain ⟨hc, hcoal⟩ := callAndAwait_waiter st name hkey opts method args c.1 c.2 sid obs
      hasync h
    have hrec := ih (callAndAwait st name hkey opts method args c.1 c.2).1 sid (obs ++ [c.1])
      hcoal
    constructor
    · rw [waiterPhase]
      have := hrec.1
      simpa [List.append_assoc] using this
    · intro r hr
      rw [waiterPhase] at hr
      simp only [List.mem_cons] at hr
      cases hr with
      | inl he =>
        subst he
        exact ⟨⟨obs, by rw [hc]⟩, by rw [hc]⟩
      | inr hm => exact hrec.2 r hm

/-- `cacheGet` on a clean slot: reports a miss; for a parameterized key it
first installs the backing map. -/
theorem cacheGet_clean (o : Obj) (pn hkey : String) (now : Int)
    (hpn : getField o pn = none) :
    cacheGet o pn hkey now =
      (if hkey = "" then o else o ++ [⟨pn, FieldVal.cmap [], false, false, false⟩],
       Except.ok (JsValue.bool false)) := by
  by_cases hk : hkey = ""
  · subst hk
    simp [cacheGet, hpn]
  · have hcfg : getCfg o pn = none := (getCfg_isNone_iff o pn).mpr hpn
    simp [cacheGet, hasOwn, hpn, hk, defineProp, hcfg]

/-- From a clean start, an asynchronous call becomes the producer: it starts
the producer invocation and installs a fresh registration with no
observers, establishing the coalescing invariant with the fresh sid. -/
theorem callAndAwait_producer (st : St) (name hkey : String) (opts : CachizeOptions)
    (method : List JsValue → JsValue) (args : List JsValue) (cid : Nat) (now : Int)
    (hasync : optsAsync opts = true)
    (h : cleanStart st name hkey = true) :
    (callAndAwait st name hkey opts method args cid now).2 =
      (Except.ok CallRes.producerStart, true) ∧
    coalSt (callAndAwait st name hkey opts method args cid now).1 name hkey st.nextSid []
      = true := by
  rw [cleanStart] at h
  simp only [Bool.and_eq_true, decide_eq_true_eq, Option.isNone_iff_eq_none] at h
  obtain ⟨⟨hpn, hsane⟩, hc0⟩ := h
  have hcg := cacheGet_clean st.obj (propNameOf name) hkey now hpn
  have hpn1 : getField
      (if hkey = "" then st.obj
       else st.obj ++ [⟨propNameOf name, FieldVal.cmap [], false, false, false⟩])
      (propNameOf name) = (if hkey = "" then none else some (FieldVal.cmap [])) := by
    by_cases hk : hkey = ""
    · simp [hk, hpn]
    · simp [hk, getField_append_self st.obj ⟨propNameOf name, FieldVal.cmap [], false, false, false⟩ hpn]
  have ho1 : getField
      (if hkey = "" then st.obj
       else st.obj ++ [⟨propNameOf name, FieldVal.cmap [], false, false, false⟩])
      "_inflightReq" = getField st.obj "_inflightReq" := by
    by_cases hk : hkey = ""
    · simp [hk]
    · simp [hk, getField_append_ne st.obj
        ⟨propNameOf name, FieldVal.cmap [], false, false, false⟩ "_inflightReq"
        (Ne.symm (propNameOf_ne_inflight name))]
  have hmiss : ∀ o2 : Obj,
      getField o2 (propNameOf name) = (if hkey = "" then none else some (FieldVal.cmap [])) →
      missShape o2 (propNameOf name) hkey = true := by
    intro o2 h2
    by_cases hk : hkey = ""
    · simp [hk] at h2
      simp [missShape, hk, h2]
    · simp [hk] at h2
      simp [missShape, hk, h2, alGet]
  cases hreg : getField st.obj "_inflightReq" with
  | none =>
    have hr := resolveInflights_register_fresh
      ⟨if hkey = "" then st.obj
        else st.obj ++ [⟨propNameOf name, FieldVal.cmap [], false, false, false⟩], st.nextSid⟩
      (propNameOf name) hkey JsValue.undef (ho1.trans hreg)
    have horch : orchestrate st name hkey opts method args now =
        ⟨(resolveInflights
            ⟨if hkey = "" then st.obj
              else st.obj ++ [⟨propNameOf name, FieldVal.cmap [], false, false, false⟩],
              st.nextSid⟩
            (propNameOf name) hkey JsValue.undef).1,
          Except.ok CallRes.producerStart, true⟩ := by
      rw [orchestrate, hcg]
      simp [truthy, hasync, hr]
    refine ⟨by rw [callAndAwait, horch], ?_⟩
    rw [callAndAwait, horch]
    rw [hr]
    have hb : getField
        ((if hkey = "" then st.obj
          else st.obj ++ [⟨propNameOf name, FieldVal.cmap [], false, false, false⟩]) ++
          [⟨"_inflightReq", FieldVal.inflight [], false, false, false⟩])
        "_inflightReq" = some (FieldVal.inflight []) :=
      getField_append_self _ ⟨"_inflightReq", FieldVal.inflight [], false, false, false⟩
        (ho1.trans hreg)
    refine coalSt_intro _ name hkey st.nextSid []
      [(fhkeyOf (propNameOf name) hkey, ⟨st.nextSid, [], false⟩)] ?_ ?_ ?_ ?_
    · refine hmiss _ ?_
      rw [getField_mutateField_ne _ _ _ _ (propNameOf_ne_inflight name),
        getField_append_ne _ _ _ (propNameOf_ne_inflight name)]
      exact hpn1
    · exact getField_mutateField_self _ _ _ (by rw [hb]; rfl)
    · simp [alGet]
    · simp [alCount]
  | some fv =>
    cases fv with
    | plain v => rw [inflightSane, hreg] at hsane; simp at hsane
    | entry e => rw [inflightSane, hreg] at hsane; simp at hsane
    | cmap m => rw [inflightSane, hreg] at hsane; simp at hsane
    | inflight fl =>
      simp only [regCount, hreg] at hc0
      have hnone : alGet fl (fhkeyOf (propNameOf name) hkey) = none :=
        alGet_eq_none_of_alCount_eq_zero fl _ hc0
      have hr := resolveInflights_register
        ⟨if hkey = "" then st.obj
          else st.obj ++ [⟨propNameOf name, FieldVal.cmap [], false, false, false⟩], st.nextSid⟩
        (propNameOf name) hkey JsValue.undef fl (ho1.trans hreg) hnone
      have horch : orchestrate st name hkey opts method args now =
          ⟨(resolveInflights
              ⟨if hkey = "" then st.obj
                else st.obj ++ [⟨propNameOf name, FieldVal.cmap [], false, false, false⟩],
                st.nextSid⟩
              (propNameOf name) hkey JsValue.undef).1,
            Except.ok CallRes.producerStart, true⟩ := by
        rw [orchestrate, hcg]
        simp [truthy, hasync, hr]
      refine ⟨by rw [callAndAwait, horch], ?_⟩
      rw [callAndAwait, horch]
      rw [hr]
      refine coalSt_intro _ name hkey st.nextSid []
        (alSet fl (fhkeyOf (propNameOf name) hkey) ⟨st.nextSid, [], false⟩) ?_ ?_ ?_ ?_
      · refine hmiss _ ?_
        rw [getField_mutateField_ne _ _ _ _ (propNameOf_ne_inflight name)]
        exact hpn1
      · exact getField_mutateField_self _ _ _ (by rw [ho1.trans hreg]; rfl)
      · exact alGet_alSet_self _ _ _
      · rw [alCount_alSet_absent _ _ _ hnone, hc0]

/-- Resolution with a truthy value from a coalescing state: the value is
stored, every observer of the registration is notified with exactly that
value, the producer's subscriber receives the same value, and the
registration is removed. -/
theorem producerComplete_emit (st : St) (name hkey : String) (v : JsValue) (now : Int)
    (opts : CachizeOptions) (sid : Nat) (obs : List Nat)
    (hv : truthy v = true)
    (h : coalSt st name hkey sid obs = true) :
    (producerComplete st name hkey (SourceOutcome.emit v) now opts).2 =
      Except.ok (obs.map (fun c => (c, v)), v) ∧
    regCount (producerComplete st name hkey (SourceOutcome.emit v) now opts).1.obj
      (fhkeyOf (propNameOf name) hkey) = 0 ∧
    cacheLookup (producerComplete st name hkey (SourceOutcome.emit v) now opts).1.obj
      (propNameOf name) hkey = some v := by
  obtain ⟨hm, fl, hg, hreg, hcount⟩ := coalSt_dest st name hkey sid obs h
  by_cases hk : hkey = ""
  · subst hk
    rw [missShape, if_pos rfl, Option.isNone_iff_eq_none] at hm
    have hcfg : getCfg st.obj (propNameOf name) = none := (getCfg_isNone_iff _ _).mpr hm
    have hg2 : getField
        (st.obj ++ [⟨propNameOf name,
          FieldVal.entry ⟨opts.ttl.map (fun t => now + t), v⟩, false, false, false⟩])
        "_inflightReq" = some (FieldVal.inflight fl) := by
      rw [getField_append_ne _ _ _ (Ne.symm (propNameOf_ne_inflight name))]
      exact hg
    have hbr := resolveInflights_broadcast
      ⟨st.obj ++ [⟨propNameOf name,
        FieldVal.entry ⟨opts.ttl.map (fun t => now + t), v⟩, false, false, false⟩], st.nextSid⟩
      (propNameOf name) "" v fl ⟨sid, obs, false⟩ hg2 hreg hv
    rw [producerComplete, cacheSet]
    simp only [bne_self_eq_false, Bool.false_eq_true, if_false, defineProp, hcfg, hbr, Except.map]
    refine ⟨by trivial, ?_, ?_⟩
    · have hreg2 := getField_mutateField_self
        (st.obj ++ [⟨propNameOf name,
          FieldVal.entry ⟨opts.ttl.map (fun t => now + t), v⟩, false, false, false⟩])
        "_inflightReq" (FieldVal.inflight (alDel fl (fhkeyOf (propNameOf name) "")))
        (by rw [hg2]; rfl)
      simp only [regCount, hreg2, alCount_alDel, hcount]
    · have hpe := getField_append_self st.obj
        ⟨propNameOf name, FieldVal.entry ⟨opts.ttl.map (fun t => now + t), v⟩,
          false, false, false⟩ hm
      have hfr := getField_mutateField_ne
        (st.obj ++ [⟨propNameOf name,
          FieldVal.entry ⟨opts.ttl.map (fun t => now + t), v⟩, false, false, false⟩])
        "_inflightReq" (propNameOf name)
        (FieldVal.inflight (alDel fl (fhkeyOf (propNameOf name) "")))
        (propNameOf_ne_inflight name)
      simp only [cacheLookup, if_pos rfl, hfr, hpe]
      simp
  · rw [missShape, if_neg hk] at hm
    cases hpf : getField st.obj (propNameOf name) with
    | none => rw [hpf] at hm; simp at hm
    | some fv =>
      cases fv with
      | plain w => rw [hpf] at hm; simp at hm
      | entry e => rw [hpf] at hm; simp at hm
      | inflight m2 => rw [hpf] at hm; simp at hm
      | cmap m =>
        have hg2 : getField
            (mutateField st.obj (propNameOf name)
              (FieldVal.cmap (alSet m hkey ⟨opts.ttl.map (fun t => now + t), v⟩)))
            "_inflightReq" = some (FieldVal.inflight fl) := by
          rw [getField_mutateField_ne _ _ _ _ (Ne.symm (propNameOf_ne_inflight name))]
          exact hg
        have hbr := resolveInflights_broadcast
          ⟨mutateField st.obj (propNameOf name)
            (FieldVal.cmap (alSet m hkey ⟨opts.ttl.map (fun t => now + t), v⟩)), st.nextSid⟩
          (propNameOf name) hkey v fl ⟨sid, obs, false⟩ hg2 hreg hv
        rw [producerComplete, cacheSet]
        have hbne : (hkey != "") = true := by simp [hk]
        simp only [hbne, if_true, hpf, hbr, Except.map]
        refine ⟨by trivial, ?_, ?_⟩
        · have hreg2 := getField_mutateField_self
            (mutateField st.obj (propNameOf name)
              (FieldVal.cmap (alSet m hkey ⟨opts.ttl.map (fun t => now + t), v⟩)))
            "_inflightReq" (FieldVal.inflight (alDel fl (fhkeyOf (propNameOf name) hkey)))
            (by rw [hg2]; rfl)
          simp only [regCount, hreg2, alCount_alDel, hcount]
        · have hps := getField_mutateField_self st.obj (propNameOf name)
            (FieldVal.cmap (alSet m hkey ⟨opts.ttl.map (fun t => now + t), v⟩))
            (by rw [hpf]; rfl)
          have hfr := getField_mutateField_ne
            (mutateField st.obj (propNameOf name)
              (FieldVal.cmap (alSet m hkey ⟨opts.ttl.map (fun t => now + t), v⟩)))
            "_inflightReq" (propNameOf name)
            (FieldVal.inflight (alDel fl (fhkeyOf (propNameOf name) hkey)))
            (propNameOf_ne_inflight name)
          simp only [cacheLookup, if_neg hk, hfr, hps, alGet_alSet_self]
          rfl

/-- `resolveInflights` only ever touches the `_inflightReq` slot, and never
throws when the registry slot is sane. -/
theorem resolveInflights_frame (st : St) (key hkey : String) (data : JsValue) (k' : String)
    (hk : k' ≠ "_inflightReq") (hsane : inflightSane st.obj = true) :
    getField (resolveInflights st key hkey data).1.obj k' = getField st.obj k' ∧
    ∃ r, (resolveInflights st key hkey data).2 = Except.ok r := by
  cases hg : getField st.obj "_inflightReq" with
  | none =>
    rw [resolveInflights_register_fresh st key hkey data hg]
    refine ⟨?_, _, rfl⟩
    rw [getField_mutateField_ne _ _ _ _ hk, getField_append_ne _ _ _ hk]
  | some fv =>
    cases fv with
    | plain v => rw [inflightSane, hg] at hsane; simp at hsane
    | entry e => rw [inflightSane, hg] at hsane; simp at hsane
    | cmap m => rw [inflightSane, hg] at hsane; simp at hsane
    | inflight fl =>
      cases hs : alGet fl (fhkeyOf key hkey) with
      | none =>
        rw [resolveInflights_register st key hkey data fl hg hs]
        exact ⟨getField_mutateField_ne _ _ _ _ hk, _, rfl⟩
      | some s =>
        cases hd : truthy data with
        | false =>
          rw [resolveInflights_waiter st key hkey data fl s hg hs hd]
          exact ⟨rfl, _, rfl⟩
        | true =>
          rw [resolveInflights_broadcast st key hkey data fl s hg hs hd]
          exact ⟨getField_mutateField_ne _ _ _ _ hk, _, rfl⟩

theorem inflightSane_eq_of_getField_eq (o o' : Obj)
    (h : getField o' "_inflightReq" = getField o "_inflightReq") :
    inflightSane o' = inflightSane o := by
  rw [inflightSane, inflightSane, h]

theorem alCount_eq_zero_of_alGet_eq_none {α : Type} (l : List (String × α)) (k : String)
    (h : alGet l k = none) : alCount l k = 0 := by
  induction l with
  | nil => rfl
  | cons p rest ih =>
    by_cases hp : p.1 = k
    · simp [alGet, hp] at h
    · simp [alGet, hp] at h
      simp [alCount, hp, ih h]

theorem cacheLookup_of_missShape (o : Obj) (pn hkey : String)
    (h : missShape o pn hkey = true) : cacheLookup o pn hkey = none := by
  by_cases hk : hkey = ""
  · subst hk
    rw [missShape, if_pos rfl, Option.isNone_iff_eq_none] at h
    rw [cacheLookup, if_pos rfl, h]
  · rw [missShape, if_neg hk] at h
    rw [cacheLookup, if_neg hk]
    cases hg : getField o pn with
    | none => rfl
    | some fv =>
      cases fv with
      | cmap m =>
        rw [hg] at h
        simp only [Option.isNone_iff_eq_none] at h
        show Option.map (fun e => e.data) (alGet m hkey) = none
        rw [h]
        rfl
      | plain v => rfl
      | entry e => rfl
      | inflight m2 => rfl

/-- The shape in which the orchestrator leaves the slot before a store: an
absent single slot, or an existing backing map. -/
def storeReady (o : Obj) (pn hkey : String) : Bool :=
  if hkey = "" then (getField o pn).isNone
  else
    match getField o pn with
    | some (FieldVal.cmap _) => true
    | _ => false

/-- The central store lemma: from a ready slot, `cacheSet` succeeds and the
stored entry `{ data := v, expired := now + ttl }` is retrievable at the
slot, while every other property is untouched. -/
theorem cacheSet_stores (o : Obj) (sid : Nat) (name hkey : String) (v : JsValue)
    (t : Int) (ttl : Option Int)
    (hready : storeReady o (propNameOf name) hkey = true)
    (hsane : inflightSane o = true) :
    (∃ ns, (cacheSet ⟨o, sid⟩ (propNameOf name) hkey v t ttl).2 = Except.ok ns) ∧
    (if hkey = "" then
        getField (cacheSet ⟨o, sid⟩ (propNameOf name) hkey v t ttl).1.obj (propNameOf name) =
          some (FieldVal.entry ⟨ttl.map (fun d => t + d), v⟩)
      else ∃ m, getField o (propNameOf name) = some (FieldVal.cmap m) ∧
        getField (cacheSet ⟨o, sid⟩ (propNameOf name) hkey v t ttl).1.obj (propNameOf name) =
          some (FieldVal.cmap (alSet m hkey ⟨ttl.map (fun d => t + d), v⟩))) := by
  by_cases hk : hkey = ""
  · subst hk
    rw [storeReady, if_pos rfl, Option.isNone_iff_eq_none] at hready
    have hcfg : getCfg o (propNameOf name) = none := (getCfg_isNone_iff _ _).mpr hready
    have happ := getField_append_self o
      ⟨propNameOf name, FieldVal.entry ⟨ttl.map (fun d => t + d), v⟩, false, false, false⟩ hready
    have hinf : getField
        (o ++ [⟨propNameOf name, FieldVal.entry ⟨ttl.map (fun d => t + d), v⟩,
          false, false, false⟩]) "_inflightReq" = getField o "_inflightReq" :=
      getField_append_ne o _ _ (Ne.symm (propNameOf_ne_inflight name))
    have hsane2 : inflightSane
        (o ++ [⟨propNameOf name, FieldVal.entry ⟨ttl.map (fun d => t + d), v⟩,
          false, false, false⟩]) = true := by
      rw [inflightSane_eq_of_getField_eq o _ hinf]
      exact hsane
    obtain ⟨hframe, r, hok⟩ := resolveInflights_frame
      ⟨o ++ [⟨propNameOf name, FieldVal.entry ⟨ttl.map (fun d => t + d), v⟩,
        false, false, false⟩], sid⟩
      (propNameOf name) "" v (propNameOf name) (propNameOf_ne_inflight name) hsane2
    rw [cacheSet]
    simp only [bne_self_eq_false, Bool.false_eq_true, if_false, defineProp, hcfg, hok,
      Except.map, if_pos rfl]
    exact ⟨⟨r.2, rfl⟩, by rw [hframe]; exact happ⟩
  · rw [storeReady, if_neg hk] at hready
    cases hg : getField o (propNameOf name) with
    | none => rw [hg] at hready; simp at hready
    | some fv =>
      cases fv with
      | plain w => rw [hg] at hready; simp at hready
      | entry e => rw [hg] at hready; simp at hready
      | inflight m2 => rw [hg] at hready; simp at hready
      | cmap m =>
        have hms := getField_mutateField_self o (propNameOf name)
          (FieldVal.cmap (alSet m hkey ⟨ttl.map (fun d => t + d), v⟩)) (by rw [hg]; rfl)
        have hinf : getField
            (mutateField o (propNameOf name)
              (FieldVal.cmap (alSet m hkey ⟨ttl.map (fun d => t + d), v⟩)))
            "_inflightReq" = getField o "_inflightReq" :=
          getField_mutateField_ne o _ _ _ (Ne.symm (propNameOf_ne_inflight name))
        have hsane2 : inflightSane
            (mutateField o (propNameOf name)
              (FieldVal.cmap (alSet m hkey ⟨ttl.map (fun d => t + d), v⟩))) = true := by
          rw [inflightSane_eq_of_getField_eq o _ hinf]
          exact hsane
        obtain ⟨hframe, r, hok⟩ := resolveInflights_frame
          ⟨mutateField o (propNameOf name)
            (FieldVal.cmap (alSet m hkey ⟨ttl.map (fun d => t + d), v⟩)), sid⟩
          (propNameOf name) hkey v (propNameOf name) (propNameOf_ne_inflight name) hsane2
        have hbne : (hkey != "") = true := by simp [hk]
        rw [cacheSet]
        simp only [hbne, if_true, hg, hok, Except.map, if_neg hk]
        exact ⟨⟨r.2, rfl⟩, m, rfl, by rw [hframe]; exact hms⟩

/-! Concrete scenario states used by the closed theorems. -/

/-- Scenario A options: `{ ttl: 100, async: false }`. -/
def scenarioAOpts : CachizeOptions := ⟨some 100, some false, none⟩

/-- Scenario A operation: always returns `'abc'`. -/
def scenarioAMethod : List JsValue → JsValue := fun _ => JsValue.str "abc"

/-- Scenario A, first call: argument `1` at time 0 on a fresh owner
(`Object.keys(1)` is empty, so the derived hash key is `''`). -/
def scenarioACall1 : CallOut :=
  wrappedCall HashFn.noF scenarioAOpts "somemethod" scenarioAMethod [JsValue.num 1] ⟨[], 0⟩ 0

/-- Scenario A, immediate second identical call (time 1). -/
def scenarioACall2 : CallOut :=
  wrappedCall HashFn.noF scenarioAOpts "somemethod" scenarioAMethod [JsValue.num 1]
    scenarioACall1.st 1

/-- Scenario A, third identical call after the ttl (time 150). -/
def scenarioACall3 : CallOut :=
  wrappedCall HashFn.noF scenarioAOpts "somemethod" scenarioAMethod [JsValue.num 1]
    scenarioACall2.st 150

/-- C3 (code bug): Scenario A, `ttl = 100`, synchronous mode.  The first
call with argument `1` returns `'abc'`, invokes the operation and caches
the value; the immediate second call returns `'abc'` without re-invoking;
but the third call at 150ms does NOT re-invoke the operation and return
`'abc'`: the expired single-slot entry lives in a property defined with
`configurable: false`, so the lazy eviction `delete obj[key]` inside
`cacheGet` throws a strict-mode TypeError and the third call fails. -/
theorem c3_scenarioA_code_bug :
    scenarioACall1.res = Except.ok (CallRes.value (JsValue.str "abc")) ∧
    scenarioACall1.invoked = true ∧
    cacheLookup scenarioACall1.st.obj (propNameOf "somemethod") "" = some (JsValue.str "abc") ∧
    scenarioACall2.res = Except.ok (CallRes.value (JsValue.str "abc")) ∧
    scenarioACall2.invoked = false ∧
    scenarioACall3.res = Except.error "TypeError: Cannot delete property" ∧
    scenarioACall3.invoked = false :=
  ⟨rfl, rfl, rfl, rfl, rfl, rfl, rfl⟩

/-- C5 (code bug): `clearAllCached` does find the reserved-stub property
(it enumerates with `getOwnPropertyNames`, which sees non-enumerable
properties), but every cache slot the engine creates is defined
`configurable: false`, so the strict-mode `delete obj[key]` throws a
TypeError and the cached entry is NOT removed.  On an owner holding one
engine-created cached value: the attribute is indeed non-configurable, the
clear throws, the entry survives, and the in-flight registry (whose name
does not carry the stub) is untouched. -/
theorem c5_clear_all_cached_code_bug :
    getCfg scenarioACall1.st.obj (propNameOf "somemethod") = some false ∧
    (clearAllCached scenarioACall1.st.obj).2 =
      Except.error "TypeError: Cannot delete property" ∧
    cacheLookup (clearAllCached scenarioACall1.st.obj).1 (propNameOf "somemethod") "" =
      some (JsValue.str "abc") ∧
    getField (clearAllCached scenarioACall1.st.obj).1 "_inflightReq" =
      getField scenarioACall1.st.obj "_inflightReq" :=
  ⟨rfl, rfl, rfl, rfl⟩

/-- C7 (code bug): the claimed defaults are not what the code applies.
`cachize()` with no options erases its own parameter default
(`options = fn` with `fn` undefined), so the wrapped operation runs with
`{}`: no 30-minute ttl and synchronous mode.  `cachize({ ttl: 100 })`
likewise loses the async default.  A no-options wrap therefore behaves
synchronously (a call returns the raw value, not an asynchronous handle)
and its cache entry never expires (still served at time 10^9).  Revision
2's `cache` does merge per-option defaults, but with `log: true`, not the
documented false. -/
theorem c7_defaults_code_bug :
    cachizeEffective CachizeArg.undef none = emptyOptions ∧
    (cachizeEffective (CachizeArg.opts ⟨some 100, none, none⟩) none).async = none ∧
    cacheEffective CacheArg.emptyObj none = ⟨some 1800000, some true, some true⟩ ∧
    (cacheEffective CacheArg.emptyObj none).log ≠ some false ∧
    (wrappedCall HashFn.noF (cachizeEffective CachizeArg.undef none) "m"
      (fun _ => JsValue.str "abc") [] ⟨[], 0⟩ 0).res =
      Except.ok (CallRes.value (JsValue.str "abc")) ∧
    (cacheGet (wrappedCall HashFn.noF (cachizeEffective CachizeArg.undef none) "m"
      (fun _ => JsValue.str "abc") [] ⟨[], 0⟩ 0).st.obj (propNameOf "m") "" 1000000000).2 =
      Except.ok (JsValue.str "abc") :=
  ⟨rfl, rfl, rfl, by decide, rfl, rfl⟩

/-- An owner with an engine-shaped empty backing map for operation `g`. -/
def c2Owner : Obj := [⟨propNameOf "g", FieldVal.cmap [], false, false, false⟩]

/-- Store `42` under hash key `"k"` at time 0 with `ttl = 1`. -/
def c2AfterSet : St × Except String (List (Nat × JsValue)) :=
  cacheSet ⟨c2Owner, 0⟩ (propNameOf "g") "k" (JsValue.num 42) 0 (some 1)

/-- C2 counterexample: the claim says a read at any `t' ≥ t + ttl` reports
the entry absent and deletes it, but at exactly `t' = t + ttl` the code's
check `expired < now` is false, so the value is still returned and the
entry kept (here `t = 0`, `ttl = 1`, `t' = 1`). -/
theorem c2_boundary_counterexample :
    c2AfterSet.2 = Except.ok [] ∧
    (cacheGet c2AfterSet.1.obj (propNameOf "g") "k" 1).2 = Except.ok (JsValue.num 42) ∧
    (cacheGet c2AfterSet.1.obj (propNameOf "g") "k" 1).1 = c2AfterSet.1.obj ∧
    Except.ok (JsValue.num 42) ≠ (Except.ok (JsValue.bool false) : Except String JsValue) :=
  ⟨rfl, rfl, rfl, fun h => JsValue.noConfusion (Except.ok.inj h)⟩

/-- Async options used in the coalescing counterexample traces. -/
def c1xOpts : CachizeOptions := ⟨some 1000, some true, none⟩

/-- Coalescing counterexample, step 1: caller 0 becomes the producer. -/
def c1xProducer : St × Except String CallRes × Bool :=
  callAndAwait ⟨[], 0⟩ "m" "k" c1xOpts (fun _ => JsValue.str "r") [] 0 0

/-- Coalescing counterexample, step 2: caller 1 joins as a waiter. -/
def c1xWaiter : St × Except String CallRes × Bool :=
  callAndAwait c1xProducer.1 "m" "k" c1xOpts (fun _ => JsValue.str "r") [] 1 5

/-- Coalescing counterexample, step 3: the producer resolves with the falsy
value `false`. -/
def c1xFin : St × Except String (List (Nat × JsValue) × JsValue) :=
  producerComplete c1xWaiter.1 "m" "k" (SourceOutcome.emit (JsValue.bool false)) 7 c1xOpts

/-- C1 counterexample: one producer, one attached waiter; the producer
resolves with `false` (a falsy value).  `resolveInflights` skips the
broadcast for falsy data: the notification list is empty — waiter 1 never
observes the resolved value, refuting "on resolution all N callers observe
the same resolved value" — and the registration survives the resolution. -/
theorem c1_falsy_counterexample :
    c1xProducer.2.1 = Except.ok CallRes.producerStart ∧
    c1xWaiter.2.1 = Except.ok (CallRes.handle ⟨0, [], false⟩) ∧
    c1xFin.2 = Except.ok ([], JsValue.bool false) ∧
    regAt c1xFin.1.obj (fhkeyOf (propNameOf "m") "k") = some ⟨0, [1], false⟩ :=
  ⟨rfl, rfl, rfl, by decide⟩

/-! Read lemmas for `cacheGet`. -/

theorem cacheGet_hit_map (o : Obj) (pn hkey : String) (now : Int)
    (mm : List (String × ICache)) (e : ICache)
    (hk : hkey ≠ "")
    (hm : getField o pn = some (FieldVal.cmap mm))
    (he : alGet mm hkey = some e)
    (hnotexp : expiredLt e.expired now = false) :
    cacheGet o pn hkey now = (o, Except.ok e.data) := by
  simp [cacheGet, hasOwn, hm, hk, he, hnotexp]

theorem cacheGet_expired_map (o : Obj) (pn hkey : String) (now : Int)
    (mm : List (String × ICache)) (e : ICache)
    (hk : hkey ≠ "")
    (hm : getField o pn = some (FieldVal.cmap mm))
    (he : alGet mm hkey = some e)
    (hexp : expiredLt e.expired now = true) :
    cacheGet o pn hkey now =
      (mutateField o pn (FieldVal.cmap (alDel mm hkey)), Except.ok (JsValue.bool false)) := by
  simp [cacheGet, hasOwn, hm, hk, he, hexp]

theorem cacheGet_hit_single (o : Obj) (pn : String) (now : Int) (e : ICache)
    (hm : getField o pn = some (FieldVal.entry e))
    (hnotexp : expiredLt e.expired now = false) :
    cacheGet o pn "" now = (o, Except.ok e.data) := by
  simp [cacheGet, hm, hnotexp]

/-- C4: round-trip.  From a store-ready owner, `set(k, v, ttl)` followed
immediately by `get(k)` succeeds and returns exactly the value `v` that was
stored — the identical term, so for a non-primitive `JsValue.obj id fields`
the reference (`id`) is preserved, which is this embedding's rendering of
reference equality.  Covers both the parameterized (map-backed, nonempty
key) and the single-slot (empty key) shapes. -/
theorem c4_round_trip (o : Obj) (sid : Nat) (name hkey : String) (v : JsValue) (t ttlv : Int)
    (hready : storeReady o (propNameOf name) hkey = true)
    (hsane : inflightSane o = true)
    (httl : 0 < ttlv) :
    (∃ ns, (cacheSet ⟨o, sid⟩ (propNameOf name) hkey v t (some ttlv)).2 = Except.ok ns) ∧
    cacheGet (cacheSet ⟨o, sid⟩ (propNameOf name) hkey v t (some ttlv)).1.obj
        (propNameOf name) hkey t =
      ((cacheSet ⟨o, sid⟩ (propNameOf name) hkey v t (some ttlv)).1.obj, Except.ok v) := by
  obtain ⟨hok, hstore⟩ := cacheSet_stores o sid name hkey v t (some ttlv) hready hsane
  refine ⟨hok, ?_⟩
  have hnotexp : expiredLt (Option.map (fun d => t + d) (some ttlv)) t = false := by
    simp [expiredLt]
    omega
  by_cases hk : hkey = ""
  · subst hk
    rw [if_pos rfl] at hstore
    exact cacheGet_hit_single _ _ _ _ hstore hnotexp
  · rw [if_neg hk] at hstore
    obtain ⟨m, hm0, hm1⟩ := hstore
    exact cacheGet_hit_map _ _ _ _ _ _ hk hm1 (alGet_alSet_self _ _ _) hnotexp

/-- C2 (amended): for a parameterized (nonempty hash) key, a value stored
at time `t` with `ttl > 0` is returned unchanged by `cacheGet` at every
`t1 ≤ t + ttl` — the interval is CLOSED on the right, since the expiry
check is `expired < now` — and at every `t2 > t + ttl` the read reports a
miss (`false`) and deletes the entry.  The claim's half-open interval
(`absent at t' = t + ttl`) is refuted by `c2_boundary_counterexample`; for
the empty single-slot key the expired read throws a TypeError instead of
deleting (see C3). -/
theorem c2_ttl_validity_amended (o : Obj) (sid : Nat) (name hkey : String) (v : JsValue)
    (m : List (String × ICache)) (t ttlv t1 t2 : Int)
    (hk : hkey ≠ "")
    (hm : getField o (propNameOf name) = some (FieldVal.cmap m))
    (hdup : alCount m hkey ≤ 1)
    (hsane : inflightSane o = true)
    (httl : 0 < ttlv)
    (h1 : t1 ≤ t + ttlv)
    (h2 : t + ttlv < t2) :
    (∃ ns, (cacheSet ⟨o, sid⟩ (propNameOf name) hkey v t (some ttlv)).2 = Except.ok ns) ∧
    cacheGet (cacheSet ⟨o, sid⟩ (propNameOf name) hkey v t (some ttlv)).1.obj
        (propNameOf name) hkey t1 =
      ((cacheSet ⟨o, sid⟩ (propNameOf name) hkey v t (some ttlv)).1.obj, Except.ok v) ∧
    (cacheGet (cacheSet ⟨o, sid⟩ (propNameOf name) hkey v t (some ttlv)).1.obj
        (propNameOf name) hkey t2).2 = Except.ok (JsValue.bool false) ∧
    cacheLookup (cacheGet (cacheSet ⟨o, sid⟩ (propNameOf name) hkey v t (some ttlv)).1.obj
        (propNameOf name) hkey t2).1 (propNameOf name) hkey = none := by
  have hready : storeReady o (propNameOf name) hkey = true := by
    rw [storeReady, if_neg hk, hm]
  obtain ⟨hok, hstore⟩ := cacheSet_stores o sid name hkey v t (some ttlv) hready hsane
  rw [if_neg hk] at hstore
  obtain ⟨m', hm0, hm1⟩ := hstore
  have hmm : m = m' := by
    rw [hm] at hm0
    exact FieldVal.cmap.inj (Option.some.inj hm0)
  subst hmm
  have hnot1 : expiredLt (Option.map (fun d => t + d) (some ttlv)) t1 = false := by
    simp [expiredLt]
    omega
  have hexp2 : expiredLt (Option.map (fun d => t + d) (some ttlv)) t2 = true := by
    simp [expiredLt]
    omega
  have hget2 := cacheGet_expired_map _ _ _ t2 _ _ hk hm1 (alGet_alSet_self _ _ _) hexp2
  have hcset : alCount (alSet m hkey ⟨Option.map (fun d => t + d) (some ttlv), v⟩) hkey ≤ 1 := by
    cases halg : alGet m hkey with
    | some e0 =>
      rw [alCount_alSet_present _ _ _ (by rw [halg]; rfl)]
      exact hdup
    | none =>
      rw [alCount_alSet_absent _ _ _ halg, alCount_eq_zero_of_alGet_eq_none _ _ halg]
  have hc0 : alCount (alDel (alSet m hkey ⟨Option.map (fun d => t + d) (some ttlv), v⟩) hkey)
      hkey = 0 := by
    rw [alCount_alDel]
    omega
  have hdel := alGet_eq_none_of_alCount_eq_zero _ _ hc0
  refine ⟨hok, cacheGet_hit_map _ _ _ t1 _ _ hk hm1 (alGet_alSet_self _ _ _) hnot1, ?_, ?_⟩
  · rw [hget2]
  · rw [hget2]
    have hms := getField_mutateField_self
      (cacheSet ⟨o, sid⟩ (propNameOf name) hkey v t (some ttlv)).1.obj (propNameOf name)
      (FieldVal.cmap (alDel (alSet m hkey ⟨Option.map (fun d => t + d) (some ttlv), v⟩) hkey))
      (by rw [hm1]; rfl)
    rw [cacheLookup, if_neg hk, hms]
    show Option.map (fun e => e.data)
      (alGet (alDel (alSet m hkey ⟨Option.map (fun d => t + d) (some ttlv), v⟩) hkey) hkey)
      = none
    rw [hdel]
    rfl

/-- C9: a falsy value (`false`, `0`, `''`, `null`, `undefined`) stored via
`cacheSet` while a registration with attached waiters exists: the
notification list is empty (no waiter is delivered the value), the
registration is not removed — the very same `Subject` (same observers, not
completed) is still registered afterwards — even though the falsy value IS
written into the cache slot. -/
theorem c9_falsy_no_broadcast (o : Obj) (sid : Nat) (name hkey : String) (v : JsValue)
    (fl : List (String × Subject)) (s : Subject) (t : Int) (ttl : Option Int)
    (hv : truthy v = false)
    (hready : storeReady o (propNameOf name) hkey = true)
    (hg : getField o "_inflightReq" = some (FieldVal.inflight fl))
    (hreg : alGet fl (fhkeyOf (propNameOf name) hkey) = some s) :
    (cacheSet ⟨o, sid⟩ (propNameOf name) hkey v t ttl).2 = Except.ok [] ∧
    regAt (cacheSet ⟨o, sid⟩ (propNameOf name) hkey v t ttl).1.obj
      (fhkeyOf (propNameOf name) hkey) = some s ∧
    regCount (cacheSet ⟨o, sid⟩ (propNameOf name) hkey v t ttl).1.obj
      (fhkeyOf (propNameOf name) hkey) = regCount o (fhkeyOf (propNameOf name) hkey) ∧
    cacheLookup (cacheSet ⟨o, sid⟩ (propNameOf name) hkey v t ttl).1.obj
      (propNameOf name) hkey = some v := by
  by_cases hk : hkey = ""
  · subst hk
    rw [storeReady, if_pos rfl, Option.isNone_iff_eq_none] at hready
    have hcfg : getCfg o (propNameOf name) = none := (getCfg_isNone_iff _ _).mpr hready
    have hg2 : getField
        (o ++ [⟨propNameOf name, FieldVal.entry ⟨ttl.map (fun d => t + d), v⟩,
          false, false, false⟩]) "_inflightReq" = some (FieldVal.inflight fl) := by
      rw [getField_append_ne _ _ _ (Ne.symm (propNameOf_ne_inflight name))]
      exact hg
    have hrw := resolveInflights_waiter
      ⟨o ++ [⟨propNameOf name, FieldVal.entry ⟨ttl.map (fun d => t + d), v⟩,
        false, false, false⟩], sid⟩
      (propNameOf name) "" v fl s hg2 hreg hv
    have happ := getField_append_self o
      ⟨propNameOf name, FieldVal.entry ⟨ttl.map (fun d => t + d), v⟩, false, false, false⟩ hready
    rw [cacheSet]
    simp only [bne_self_eq_false, Bool.false_eq_true, if_false, defineProp, hcfg, hrw,
      Except.map]
    refine ⟨by trivial, ?_, ?_, ?_⟩
    · simp only [regAt, hg2, hreg]
    · simp only [regCount, hg2, hg]
    · have happ2 : getField
          (o ++ [⟨propNameOf name, FieldVal.entry ⟨ttl.map (fun d => t + d), v⟩,
            false, false, false⟩]) (propNameOf name) =
          some (FieldVal.entry ⟨ttl.map (fun d => t + d), v⟩) := happ
      rw [cacheLookup, if_pos rfl, happ2]
  · rw [storeReady, if_neg hk] at hready
    cases hpf : getField o (propNameOf name) with
    | none => rw [hpf] at hready; simp at hready
    | some fv =>
      cases fv with
      | plain w => rw [hpf] at hready; simp at hready
      | entry e => rw [hpf] at hready; simp at hready
      | inflight m2 => rw [hpf] at hready; simp at hready
      | cmap m =>
        have hg2 : getField
            (mutateField o (propNameOf name)
              (FieldVal.cmap (alSet m hkey ⟨ttl.map (fun d => t + d), v⟩)))
            "_inflightReq" = some (FieldVal.inflight fl) := by
          rw [getField_mutateField_ne _ _ _ _ (Ne.symm (propNameOf_ne_inflight name))]
          exact hg
        have hrw := resolveInflights_waiter
          ⟨mutateField o (propNameOf name)
            (FieldVal.cmap (alSet m hkey ⟨ttl.map (fun d => t + d), v⟩)), sid⟩
          (propNameOf name) hkey v fl s hg2 hreg hv
        have hms := getField_mutateField_self o (propNameOf name)
          (FieldVal.cmap (alSet m hkey ⟨ttl.map (fun d => t + d), v⟩)) (by rw [hpf]; rfl)
        have hbne : (hkey != "") = true := by simp [hk]
        rw [cacheSet]
        simp only [hbne, if_true, hpf, hrw, Except.map]
        refine ⟨by trivial, ?_, ?_, ?_⟩
        · simp only [regAt, hg2, hreg]
        · simp only [regCount, hg2, hg]
        · rw [cacheLookup, if_neg hk, hms]
          show Option.map (fun e => e.data) (alGet (alSet m hkey ⟨ttl.map (fun d => t + d), v⟩) hkey)
            = some v
          rw [alGet_alSet_self]
          rfl

/-- C8: if the custom hash function raises, the exception propagates
synchronously to the immediate caller — the wrapped call returns that very
error — the owner state is returned literally unchanged (no cache entry,
container, or in-flight registration is created or modified; the hash runs
before any cache access), and the original method is not invoked. -/
theorem c8_hash_error_atomicity (st : St) (opts : CachizeOptions) (name : String)
    (method : List JsValue → JsValue) (args : List JsValue) (now : Int)
    (hfn : List JsValue → Except String String) (e : String)
    (hargs : args ≠ [])
    (herr : hfn args = Except.error e) :
    wrappedCall (HashFn.f hfn) opts name method args st now = ⟨st, Except.error e, false⟩ := by
  cases args with
  | nil => exact absurd rfl hargs
  | cons a rest =>
    rw [wrappedCall, computeHashKey]
    simp only [herr, Except.map]

/-- C1 (amended): single-flight coalescing for truthy resolved values.
From a clean start, the first call becomes the producer (the only producer
invocation); each of the N subsequent cooperative calls arriving before
resolution is handed the same pending registration's subject (same `sid`;
none invokes the producer); while they arrive exactly one registration
exists for the key; when the producer resolves with a TRUTHY value `v`,
every one of the N waiters is notified with exactly `v`, the producer's own
subscriber receives the same `v`, the registration is removed, and `v` is
cached.  For falsy `v` the broadcast clause fails — see
`c1_falsy_counterexample` and C9. -/
theorem c1_single_flight_truthy (st0 st1 st2 st3 : St) (name hkey : String)
    (opts : CachizeOptions) (method : List JsValue → JsValue) (args : List JsValue)
    (pid : Nat) (t0 : Int) (calls : List (Nat × Int)) (v : JsValue) (tE : Int)
    (r1 : Except String CallRes) (b1 : Bool) (rs : List (Except String CallRes × Bool))
    (fin : Except String (List (Nat × JsValue) × JsValue))
    (hasync : optsAsync opts = true)
    (hclean : cleanStart st0 name hkey = true)
    (hv : truthy v = true)
    (hfirst : callAndAwait st0 name hkey opts method args pid t0 = (st1, r1, b1))
    (hphase : waiterPhase name hkey opts method args st1 calls = (st2, rs))
    (hfin : producerComplete st2 name hkey (SourceOutcome.emit v) tE opts = (st3, fin)) :
    r1 = Except.ok CallRes.producerStart ∧ b1 = true ∧
    (∀ r ∈ rs, (∃ mid, r.1 = Except.ok (CallRes.handle ⟨st0.nextSid, mid, false⟩)) ∧
      r.2 = false) ∧
    regCount st2.obj (fhkeyOf (propNameOf name) hkey) = 1 ∧
    fin = Except.ok (calls.map (fun c => (c.1, v)), v) ∧
    regCount st3.obj (fhkeyOf (propNameOf name) hkey) = 0 ∧
    cacheLookup st3.obj (propNameOf name) hkey = some v := by
  obtain ⟨hres, hcoal1⟩ :=
    callAndAwait_producer st0 name hkey opts method args pid t0 hasync hclean
  rw [hfirst] at hres hcoal1
  obtain ⟨hcoal2, hhandles⟩ :=
    waiterPhase_spec name hkey opts method args hasync calls st1 st0.nextSid [] hcoal1
  rw [hphase] at hcoal2 hhandles
  simp only [List.nil_append] at hcoal2
  obtain ⟨hfin2, hreg0, hlook⟩ :=
    producerComplete_emit st2 name hkey v tE opts st0.nextSid
      (calls.map (fun c => c.1)) hv hcoal2
  rw [hfin] at hfin2 hreg0 hlook
  obtain ⟨-, fl2, hg2, -, hc2⟩ := coalSt_dest st2 name hkey st0.nextSid _ hcoal2
  have hres2 : (r1, b1) = (Except.ok CallRes.producerStart, true) := hres
  refine ⟨(Prod.mk.inj hres2).1, (Prod.mk.inj hres2).2, hhandles, ?_, ?_, hreg0, hlook⟩
  · rw [regCount, hg2]
    exact hc2
  · have hfin3 : fin =
        Except.ok (List.map (fun c => (c, v)) (List.map (fun c => c.1) calls), v) := hfin2
    rw [hfin3, List.map_map]
    rfl

/-- C6: producer failure in asynchronous mode.  From a clean start with a
producer and N attached waiters, when the producer's source errors the
`tap` side effect never runs: the error is delivered to the producer's own
subscriber (the call's asynchronous failure channel), the engine state is
returned literally unchanged, no value is cached for the key, and the
registration — with all N waiters attached and not completed — stays
pending, so the waiters are never notified. -/
theorem c6_producer_failure_async (st0 st1 st2 : St) (name hkey : String)
    (opts : CachizeOptions) (method : List JsValue → JsValue) (args : List JsValue)
    (pid : Nat) (t0 : Int) (calls : List (Nat × Int)) (e : String) (tE : Int)
    (r1 : Except String CallRes) (b1 : Bool) (rs : List (Except String CallRes × Bool))
    (hasync : optsAsync opts = true)
    (hclean : cleanStart st0 name hkey = true)
    (hfirst : callAndAwait st0 name hkey opts method args pid t0 = (st1, r1, b1))
    (hphase : waiterPhase name hkey opts method args st1 calls = (st2, rs)) :
    r1 = Except.ok CallRes.producerStart ∧
    producerComplete st2 name hkey (SourceOutcome.fail e) tE opts = (st2, Except.error e) ∧
    regAt st2.obj (fhkeyOf (propNameOf name) hkey) =
      some ⟨st0.nextSid, calls.map (fun c => c.1), false⟩ ∧
    cacheLookup st2.obj (propNameOf name) hkey = none := by
  obtain ⟨hres, hcoal1⟩ :=
    callAndAwait_producer st0 name hkey opts method args pid t0 hasync hclean
  rw [hfirst] at hres hcoal1
  have hres2 : (r1, b1) = (Except.ok CallRes.producerStart, true) := hres
  obtain ⟨hcoal2, -⟩ :=
    waiterPhase_spec name hkey opts method args hasync calls st1 st0.nextSid [] hcoal1
  rw [hphase] at hcoal2
  simp only [List.nil_append] at hcoal2
  obtain ⟨hm, fl2, hg2, hr2, -⟩ := coalSt_dest st2 name hkey st0.nextSid _ hcoal2
  refine ⟨(Prod.mk.inj hres2).1, rfl, ?_, cacheLookup_of_missShape _ _ _ hm⟩
  simp only [regAt, hg2]
  exact hr2

/-- C10: in a coalescing state whose producer has failed (the failure path
removes nothing, see C6), every subsequent asynchronous call for the key —
any number of them, at any instants — receives the same stale
registration's subject (same `sid`), never starts a new producer
invocation, and leaves the registration in place with no cache entry: the
key can never produce a value again. -/
theorem c10_stale_registration_forever (st : St) (name hkey : String)
    (opts : CachizeOptions) (method : List JsValue → JsValue) (args : List JsValue)
    (sid : Nat) (obs : List Nat) (calls : List (Nat × Int))
    (st2 : St) (rs : List (Except String CallRes × Bool))
    (hasync : optsAsync opts = true)
    (h : coalSt st name hkey sid obs = true)
    (hphase : waiterPhase name hkey opts method args st calls = (st2, rs)) :
    (∀ r ∈ rs, (∃ mid, r.1 = Except.ok (CallRes.handle ⟨sid, mid, false⟩)) ∧ r.2 = false) ∧
    regAt st2.obj (fhkeyOf (propNameOf name) hkey) =
      some ⟨sid, obs ++ calls.map (fun c => c.1), false⟩ ∧
    regCount st2.obj (fhkeyOf (propNameOf name) hkey) = 1 ∧
    cacheLookup st2.obj (propNameOf name) hkey = none := by
  obtain ⟨hcoal2, hhandles⟩ :=
    waiterPhase_spec name hkey opts method args hasync calls st sid obs h
  rw [hphase] at hcoal2 hhandles
  obtain ⟨hm, fl2, hg2, hr2, hc2⟩ := coalSt_dest st2 name hkey sid _ hcoal2
  refine ⟨hhandles, ?_, ?_, cacheLookup_of_missShape _ _ _ hm⟩
  · simp only [regAt, hg2]
    exact hr2
  · simp only [regCount, hg2]
    exact hc2

/-! Witness traces (concrete instantiations of the hypotheses-bearing
theorems). -/

/-- Producer call of the witness trace: caller 0 on a fresh owner. -/
def wProducer : St × Except String CallRes × Bool :=
  callAndAwait ⟨[], 0⟩ "m" "k" c1xOpts (fun _ => JsValue.str "r") [] 0 0

/-- Two waiters (callers 1 and 3) join before resolution. -/
def wPhase : St × List (Except String CallRes × Bool) :=
  waiterPhase "m" "k" c1xOpts (fun _ => JsValue.str "r") [] wProducer.1 [(1, 2), (3, 4)]

/-- The producer resolves with the truthy value `'r'`. -/
def wFinEmit : St × Except String (List (Nat × JsValue) × JsValue) :=
  producerComplete wPhase.1 "m" "k" (SourceOutcome.emit (JsValue.str "r")) 9 c1xOpts

/-- Witness for C1: fresh owner, producer, waiters 1 and 3, resolution with
`'r'`: both waiters are notified with `'r'`, the producer receives `'r'`,
the registration is gone and `'r'` is cached. -/
theorem c1_single_flight_witness :
    optsAsync c1xOpts = true ∧ cleanStart ⟨[], 0⟩ "m" "k" = true ∧
    truthy (JsValue.str "r") = true ∧
    (wProducer.2.1 = Except.ok CallRes.producerStart ∧ wProducer.2.2 = true ∧
     (∀ r ∈ wPhase.2,
       (∃ mid, r.1 = Except.ok (CallRes.handle ⟨0, mid, false⟩)) ∧ r.2 = false) ∧
     regCount wPhase.1.obj (fhkeyOf (propNameOf "m") "k") = 1 ∧
     wFinEmit.2 = Except.ok ([(1, JsValue.str "r"), (3, JsValue.str "r")], JsValue.str "r") ∧
     regCount wFinEmit.1.obj (fhkeyOf (propNameOf "m") "k") = 0 ∧
     cacheLookup wFinEmit.1.obj (propNameOf "m") "k" = some (JsValue.str "r")) :=
  ⟨rfl, by decide, rfl,
   c1_single_flight_truthy ⟨[], 0⟩ wProducer.1 wPhase.1 wFinEmit.1 "m" "k" c1xOpts
     (fun _ => JsValue.str "r") [] 0 0 [(1, 2), (3, 4)] (JsValue.str "r") 9
     wProducer.2.1 wProducer.2.2 wPhase.2 wFinEmit.2 rfl (by decide) rfl rfl rfl rfl⟩

/-- Witness for C6: the same producer-plus-two-waiters trace, but the
producer fails with `'boom'`: the error goes to the producer only, the
state is untouched, the registration with waiters 1 and 3 stays pending,
nothing is cached. -/
theorem c6_producer_failure_witness :
    optsAsync c1xOpts = true ∧ cleanStart ⟨[], 0⟩ "m" "k" = true ∧
    (wProducer.2.1 = Except.ok CallRes.producerStart ∧
     producerComplete wPhase.1 "m" "k" (SourceOutcome.fail "boom") 9 c1xOpts =
       (wPhase.1, Except.error "boom") ∧
     regAt wPhase.1.obj (fhkeyOf (propNameOf "m") "k") = some ⟨0, [1, 3], false⟩ ∧
     cacheLookup wPhase.1.obj (propNameOf "m") "k" = none) :=
  ⟨rfl, by decide,
   c6_producer_failure_async ⟨[], 0⟩ wProducer.1 wPhase.1 "m" "k" c1xOpts
     (fun _ => JsValue.str "r") [] 0 0 [(1, 2), (3, 4)] "boom" 9
     wProducer.2.1 wProducer.2.2 wPhase.2 rfl (by decide) rfl rfl⟩

/-- One more call (caller 7) against the stale post-failure state. -/
def w10Phase : St × List (Except String CallRes × Bool) :=
  waiterPhase "m" "k" c1xOpts (fun _ => JsValue.str "r") [] wPhase.1 [(7, 100)]

/-- Witness for C10: after the failure, caller 7 still receives the stale
subject of registration 0, no producer starts, and the registration (now
with observers 1, 3, 7) persists with no cache entry. -/
theorem c10_stale_registration_witness :
    coalSt wPhase.1 "m" "k" 0 [1, 3] = true ∧
    ((∀ r ∈ w10Phase.2,
       (∃ mid, r.1 = Except.ok (CallRes.handle ⟨0, mid, false⟩)) ∧ r.2 = false) ∧
     regAt w10Phase.1.obj (fhkeyOf (propNameOf "m") "k") = some ⟨0, [1, 3, 7], false⟩ ∧
     regCount w10Phase.1.obj (fhkeyOf (propNameOf "m") "k") = 1 ∧
     cacheLookup w10Phase.1.obj (propNameOf "m") "k" = none) :=
  ⟨by decide,
   c10_stale_registration_forever wPhase.1 "m" "k" c1xOpts (fun _ => JsValue.str "r") []
     0 [1, 3] [(7, 100)] w10Phase.1 w10Phase.2 rfl (by decide) rfl⟩

/-- Store of the C2 witness: value 42 under key `"k"` at time 0, ttl 5. -/
def w2Set : St × Except String (List (Nat × JsValue)) :=
  cacheSet ⟨c2Owner, 0⟩ (propNameOf "g") "k" (JsValue.num 42) 0 (some 5)

/-- Witness for C2 (amended): reads at 5 (= t + ttl, still valid) and at 6
(expired: miss and entry deleted). -/
theorem c2_ttl_validity_witness :
    ("k" : String) ≠ "" ∧
    getField c2Owner (propNameOf "g") = some (FieldVal.cmap []) ∧
    alCount ([] : List (String × ICache)) "k" ≤ 1 ∧
    inflightSane c2Owner = true ∧ (0 : Int) < 5 ∧
    ((∃ ns, w2Set.2 = Except.ok ns) ∧
     cacheGet w2Set.1.obj (propNameOf "g") "k" 5 = (w2Set.1.obj, Except.ok (JsValue.num 42)) ∧
     (cacheGet w2Set.1.obj (propNameOf "g") "k" 6).2 = Except.ok (JsValue.bool false) ∧
     cacheLookup (cacheGet w2Set.1.obj (propNameOf "g") "k" 6).1 (propNameOf "g") "k" = none) :=
  ⟨by decide, rfl, by decide, by decide, by decide,
   c2_ttl_validity_amended c2Owner 0 "g" "k" (JsValue.num 42) [] 0 5 5 6
     (by decide) rfl (by decide) (by decide) (by decide) (by decide) (by decide)⟩

/-- Store of the C4 witness: a non-primitive value (object reference 7). -/
def w4Set : St × Except String (List (Nat × JsValue)) :=
  cacheSet ⟨c2Owner, 0⟩ (propNameOf "g") "k"
    (JsValue.obj 7 [("a", JsValue.num 1)]) 3 (some 5)

/-- Witness for C4: set then immediate get of an object value returns the
identical term (reference id 7 preserved). -/
theorem c4_round_trip_witness :
    storeReady c2Owner (propNameOf "g") "k" = true ∧
    inflightSane c2Owner = true ∧ (0 : Int) < 5 ∧
    ((∃ ns, w4Set.2 = Except.ok ns) ∧
     cacheGet w4Set.1.obj (propNameOf "g") "k" 3 =
       (w4Set.1.obj, Except.ok (JsValue.obj 7 [("a", JsValue.num 1)]))) :=
  ⟨by decide, by decide, by decide,
   c4_round_trip c2Owner 0 "g" "k" (JsValue.obj 7 [("a", JsValue.num 1)]) 3 5
     (by decide) (by decide) (by decide)⟩

/-- Witness for C8: a custom hash function that throws `'boom'` on the
supplied argument list. -/
theorem c8_hash_error_witness :
    ([JsValue.num 1] : List JsValue) ≠ [] ∧
    wrappedCall (HashFn.f (fun _ => Except.error "boom")) c1xOpts "m"
      (fun _ => JsValue.undef) [JsValue.num 1] ⟨[], 0⟩ 0 =
      ⟨⟨[], 0⟩, Except.error "boom", false⟩ :=
  ⟨List.cons_ne_nil _ _,
   c8_hash_error_atomicity ⟨[], 0⟩ c1xOpts "m" (fun _ => JsValue.undef) [JsValue.num 1] 0
     (fun _ => Except.error "boom") "boom" (List.cons_ne_nil _ _) rfl⟩

/-- Owner of the C9 witness: ready map slot for `g` plus a pending
registration whose subject has waiter 4 attached. -/
def c9Owner : Obj :=
  [⟨propNameOf "g", FieldVal.cmap [], false, false, false⟩,
   ⟨"_inflightReq",
    FieldVal.inflight [(fhkeyOf (propNameOf "g") "k", ⟨0, [4], false⟩)],
    false, false, false⟩]

/-- Store of the C9 witness: the falsy value `0`. -/
def w9Set : St × Except String (List (Nat × JsValue)) :=
  cacheSet ⟨c9Owner, 1⟩ (propNameOf "g") "k" (JsValue.num 0) 0 (some 5)

/-- Witness for C9: storing `0` with waiter 4 attached notifies nobody,
keeps the registration (same subject, waiter 4 still attached, not
completed), yet writes `0` into the cache slot. -/
theorem c9_falsy_no_broadcast_witness :
    truthy (JsValue.num 0) = false ∧
    storeReady c9Owner (propNameOf "g") "k" = true ∧
    getField c9Owner "_inflightReq" =
      some (FieldVal.inflight [(fhkeyOf (propNameOf "g") "k", ⟨0, [4], false⟩)]) ∧
    (w9Set.2 = Except.ok [] ∧
     regAt w9Set.1.obj (fhkeyOf (propNameOf "g") "k") = some ⟨0, [4], false⟩ ∧
     regCount w9Set.1.obj (fhkeyOf (propNameOf "g") "k") =
       regCount c9Owner (fhkeyOf (propNameOf "g") "k") ∧
     cacheLookup w9Set.1.obj (propNameOf "g") "k" = some (JsValue.num 0)) :=
  ⟨rfl, by decide, rfl,
   c9_falsy_no_broadcast c9Owner 1 "g" "k" (JsValue.num 0)
     [(fhkeyOf (propNameOf "g") "k", ⟨0, [4], false⟩)] ⟨0, [4], false⟩ 0 (some 5)
     rfl (by decide) rfl (by decide)⟩

end Cachizer
